import Mathlib

/-!
Verification of the CSV-backed lookup engine of this repository.

The route code (the query API route and the standalone count endpoint) is
shallowly embedded below: JavaScript strings are Lean `String`s, JS `Map`s
are association lists with update-in-place semantics (insertion order
preserved, overwrite on duplicate key), JS objects holding CSV rows are
association lists as well, `undefined` is `Option.none`, and `date-fns`
calendar arithmetic is modelled by explicit proleptic-Gregorian arithmetic
with the day-of-month clamping that `addMonths`/`addYears` performs.
Numeric tuning values use `Int` with exact floor division in place of IEEE
doubles (the formula `Math.floor(rows * udgr / 100 + naud)` is exact at all
realistic magnitudes).
-/

namespace AdobeLookup

/-! ## JavaScript string primitives -/

/-- Whitespace for the purposes of JS `String.prototype.trim` and `\s`
(the characters that actually occur in this data: ASCII whitespace,
NBSP and the BOM). -/
def jsIsWs (c : Char) : Bool :=
  c == ' ' || c == '\t' || c == '\n' || c == '\r' || c == '\x0b' || c == '\x0c' ||
  c == '\u00A0' || c == '\uFEFF'

def jsTrimL (cs : List Char) : List Char :=
  ((cs.dropWhile jsIsWs).reverse.dropWhile jsIsWs).reverse

/-- JS `s.trim()`. -/
def jsTrim (s : String) : String := ⟨jsTrimL s.data⟩

/-- JS `s.toLowerCase()` (ASCII range, which is all this data uses). -/
def jsToLower (s : String) : String := ⟨s.data.map Char.toLower⟩

/-- Is `pre` a leading part of `cs`? -/
def startsL : List Char → List Char → Bool
  | [], _ => true
  | _ :: _, [] => false
  | a :: as, b :: bs => a == b && startsL as bs

/-- Is `suf` a trailing part of `cs`? -/
def endsL (suf cs : List Char) : Bool := startsL suf.reverse cs.reverse

/-- Substring search over the character list `hay`. -/
def inclL (needle : List Char) : List Char → Bool
  | [] => startsL needle []
  | c :: rest => startsL needle (c :: rest) || inclL needle rest

/-- JS `hay.includes(needle)`. -/
def jsIncludes (hay needle : String) : Bool := inclL needle.data hay.data

/-- JS `s.split(sep)` for a single-character separator. -/
def splitOnCharL (sep : Char) : List Char → List (List Char)
  | [] => [[]]
  | c :: cs =>
    if c == sep then [] :: splitOnCharL sep cs
    else
      match splitOnCharL sep cs with
      | [] => [[c]]
      | r :: rs => (c :: r) :: rs

/-- JS `s.split(/\r?\n/)`: a lone `\r` is not a separator. -/
def splitLinesL : List Char → List (List Char)
  | [] => [[]]
  | '\r' :: '\n' :: cs => [] :: splitLinesL cs
  | '\n' :: cs => [] :: splitLinesL cs
  | c :: cs =>
    match splitLinesL cs with
    | [] => [[c]]
    | r :: rs => (c :: r) :: rs

/-- Decimal digit to its character. -/
def digitChar : Nat → Char
  | 0 => '0'
  | 1 => '1'
  | 2 => '2'
  | 3 => '3'
  | 4 => '4'
  | 5 => '5'
  | 6 => '6'
  | 7 => '7'
  | 8 => '8'
  | _ => '9'

/-- Value of a most-significant-first digit list. -/
def digitsValL (cs : List Char) : Nat := cs.foldl (fun a c => a * 10 + (c.toNat - 48)) 0

def natDigitsAux : Nat → Nat → List Char
  | 0, _ => []
  | fuel + 1, n => if n < 10 then [digitChar n] else natDigitsAux fuel (n / 10) ++ [digitChar (n % 10)]

/-- Full decimal representation of `n` (used by the date formatter when the
year exceeds four digits, matching the behaviour of `format`'s `yyyy`). -/
def natDigits (n : Nat) : List Char := natDigitsAux (n + 1) n

/-- The low `k` decimal digits of `x`, zero padded, most significant first. -/
def padDigits : Nat → Nat → List Char
  | 0, _ => []
  | k + 1, x => digitChar (x / 10 ^ k % 10) :: padDigits k x

/-- `n` rendered with at least `k` digits (zero padded), as `format`'s
padded numeric tokens produce. -/
def padNum (k n : Nat) : List Char := if n < 10 ^ k then padDigits k n else natDigits n

/-- JS `<` on strings: lexicographic comparison of code units. -/
def jsLtL : List Char → List Char → Bool
  | [], [] => false
  | [], _ :: _ => true
  | _ :: _, [] => false
  | a :: as, b :: bs =>
    if a.toNat < b.toNat then true
    else if b.toNat < a.toNat then false
    else jsLtL as bs

/-- JS `s <= t` (that is, `!(t < s)`). -/
def jsLe (s t : String) : Bool := !(jsLtL t.data s.data)

/-- Longest decimal-digit run at the front, `none` if there is none. -/
def leadDigits (cs : List Char) : Option Nat :=
  let ds := cs.takeWhile Char.isDigit
  if ds.isEmpty then none else some (digitsValL ds)

/-- JS `parseInt(s, 10)`: optional single sign, then the longest digit run;
`none` models `NaN`. -/
def jsParseInt (s : String) : Option Int :=
  match s.data.dropWhile jsIsWs with
  | '+' :: rest => (leadDigits rest).map (fun n => (n : Int))
  | '-' :: rest => (leadDigits rest).map (fun n => -(n : Int))
  | rest => (leadDigits rest).map (fun n => (n : Int))

/-! ## Calendar arithmetic (the `date-fns` subset the route uses) -/

structure SimpleDate where
  year : Nat
  month : Nat
  day : Nat
deriving DecidableEq

def isLeapYear (y : Nat) : Bool := (y % 4 == 0 && y % 100 != 0) || y % 400 == 0

def daysInMonth (y m : Nat) : Nat :=
  if m == 2 then (if isLeapYear y then 29 else 28)
  else if m == 4 || m == 6 || m == 9 || m == 11 then 30
  else 31

/-- The eight-digit numeral `yyyyMMdd` as a number (for comparisons). -/
def dateNum (d : SimpleDate) : Nat := d.year * 10000 + d.month * 100 + d.day

/-- Greedy consumption of up to `k` further digits on top of `acc`. -/
def takeDigitsAux : Nat → Nat → List Char → Nat × List Char
  | 0, acc, cs => (acc, cs)
  | _ + 1, acc, [] => (acc, [])
  | k + 1, acc, c :: cs =>
    if c.isDigit then takeDigitsAux k (acc * 10 + (c.toNat - 48)) cs else (acc, c :: cs)

/-- Greedy parse of one to `maxN` digits, as `date-fns`' numeric field
tokens match `\d{1,n}`. -/
def takeDigits (maxN : Nat) : List Char → Option (Nat × List Char)
  | c :: cs => if c.isDigit then some (takeDigitsAux (maxN - 1) (c.toNat - 48) cs) else none
  | [] => none

/-- `parse(s, 'yyyyMMdd')` followed by `isValid`: greedy `yyyy`/`MM`/`dd`
fields, no leftover input, year positive, month 1–12 and day within the
month of that (leap-aware) year. -/
def parseYMD (s : String) : Option SimpleDate := do
  let (y, r1) ← takeDigits 4 s.data
  let (m, r2) ← takeDigits 2 r1
  let (d, r3) ← takeDigits 2 r2
  if r3 = [] ∧ 1 ≤ y ∧ 1 ≤ m ∧ m ≤ 12 ∧ 1 ≤ d ∧ d ≤ daysInMonth y m then
    pure ⟨y, m, d⟩
  else none

/-- `date-fns` `addMonths`: advance the month count and clamp the day of
month to the target month's length. -/
def addMonthsD (dt : SimpleDate) (n : Nat) : SimpleDate :=
  let t := 12 * dt.year + (dt.month - 1) + n
  let y := t / 12
  let m := t % 12 + 1
  ⟨y, m, min dt.day (daysInMonth y m)⟩

/-- `date-fns` `addYears`, which delegates to `addMonths` with `12 * n`. -/
def addYearsD (dt : SimpleDate) (n : Nat) : SimpleDate := addMonthsD dt (12 * n)

/-- `format(date, 'yyyyMMdd')`: the year zero padded to at least four
digits, month and day to two. -/
def formatYMD (d : SimpleDate) : String :=
  ⟨padNum 4 d.year ++ padDigits 2 d.month ++ padDigits 2 d.day⟩

/-- Largest day representable by a JS `Date` (`+275760-09-13`); past it the
addition yields an invalid date and `format` throws, which the calculator
catches. -/
def maxJsDateNum : Nat := 2757600913

/-- Period code match against `^(\d+)([my])$` (case-insensitive, on the
trimmed string); the `Bool` is `true` for the year unit. -/
def periodParse (v : String) : Option (Nat × Bool) :=
  match (jsToLower (jsTrim v)).data.reverse with
  | [] => none
  | u :: restRev =>
    let ds := restRev.reverse
    if (u == 'm' || u == 'y') && !ds.isEmpty && ds.all Char.isDigit then
      some (digitsValL ds, u == 'y')
    else none

/-- `calculateExpirationDate` from the query routes, with `undefined`
arguments as `none`. -/
def calculateExpirationDate (a? v? : Option String) : String :=
  let aStr := a?.getD ""
  let vStr := v?.getD ""
  let isRolling := jsToLower (jsTrim aStr) = "rolling"
  if aStr = "" ∨ vStr = "" ∨ aStr = "-" ∨ vStr = "-" ∨ isRolling then
    if isRolling then "Rolling" else "-"
  else
    match parseYMD (jsTrim aStr) with
    | none => "-"
    | some dt =>
      match periodParse vStr with
      | none => "-"
      | some (n, isYear) =>
        let res := if isYear then addYearsD dt n else addMonthsD dt n
        if maxJsDateNum < dateNum res then "-" else formatYMD res

/-! ## JS `Map`s and row objects as ordered association lists -/

/-- `Map.set` / object property write: overwrite in place, else append. -/
def mapSet {α : Type} : List (String × α) → String → α → List (String × α)
  | [], k, v => [(k, v)]
  | (k', v') :: rest, k, v =>
    if k' == k then (k', v) :: rest else (k', v') :: mapSet rest k v

/-- `Map.get` / object property read (`undefined` as `none`). -/
def mapGet {α : Type} (m : List (String × α)) (k : String) : Option α :=
  (m.find? (fun p => p.1 == k)).map (·.2)

/-- `Map.has(k)`. -/
def mapHas {α : Type} (m : List (String × α)) (k : String) : Bool := (mapGet m k).isSome

/-- A parsed CSV row: column name to trimmed value. -/
abbrev CsvRow := List (String × String)

def rowGet (r : CsvRow) (k : String) : Option String := mapGet r k

/-- `value || dflt` on an optional string: `undefined` and `""` both fall
back. -/
def orElseStr (o : Option String) (dflt : String) : String :=
  match o with
  | none => dflt
  | some s => if s = "" then dflt else s

/-! ## The CSV line parser and the tabular loader -/

/-- State machine of `parseCsvLine`: accumulating current field (reversed),
quote-aware; a doubled quote inside quotes emits one quote. -/
def parseCsvLineAux : Bool → List Char → List Char → List (List Char)
  | _, acc, [] => [acc.reverse]
  | true, acc, '"' :: '"' :: rest => parseCsvLineAux true ('"' :: acc) rest
  | inQ, acc, '"' :: rest => parseCsvLineAux (!inQ) acc rest
  | false, acc, ',' :: rest => acc.reverse :: parseCsvLineAux false [] rest
  | inQ, acc, c :: rest => parseCsvLineAux inQ (c :: acc) rest

/-- `parseCsvLine`: split one line on unquoted commas and trim every
field. -/
def parseCsvLine (line : String) : List String :=
  (parseCsvLineAux false [] line.data).map (fun cs => (⟨jsTrimL cs⟩ : String))

/-- Index of the first occurrence of `k` (the length when absent). -/
def idxOfStr (k : String) : List String → Nat
  | [] => 0
  | h :: t => if h == k then 0 else idxOfStr k t + 1

/-- Result of the header phase of `parseCsvData`. -/
structure HeaderCtx where
  headers : List String
  emailHeader : String
  emailIndex : Nat
deriving DecidableEq

def expectedMainHeaders : List String := ["Email", "Product Configurations"]
def expectedAdditionalHeaders : List String := ["Email", "Approver", "rat", "pov", "Org"]
def expectedPaymentHeaders : List String := ["Email", "PaymentDate", "Approver", "pov"]

/-- Header validation of `parseCsvData`: non-empty header tokens, required
headers present except that `Org` is optional for the additional file, and
an `Email` column located case-insensitively. -/
def headerStage (firstLine label : String) (expected : List String) : Option HeaderCtx :=
  let headers := ((parseCsvLine firstLine).map jsTrim).filter (· ≠ "")
  if headers.isEmpty then none
  else
    let lower := headers.map jsToLower
    let missing := expected.filter (fun eh => !(lower.contains (jsToLower eh)))
    let isAdditionalFile := jsIncludes label "additional"
    let isOrgOptional := isAdditionalFile && missing.all (fun h => jsToLower h == "org")
    if !missing.isEmpty && !isOrgOptional then none
    else
      match headers.find? (fun h => jsToLower h == "email") with
      | none => none
      | some eh => some ⟨headers, eh, idxOfStr eh headers⟩

/-- The data-line skip test `!line || /^\s*,*\s*$/.test(line)`. -/
def isSkipLine (line : String) : Bool :=
  line.data.isEmpty ||
  (((line.data.dropWhile jsIsWs).dropWhile (· == ',')).dropWhile jsIsWs).isEmpty

/-- Row built from one data line (`headers.forEach` with object-property
writes, so a duplicated header keeps its last value). -/
def buildRow (headers values : List String) : CsvRow :=
  headers.enum.foldl (fun r p => mapSet r p.2 (jsTrim (values.getD p.1 ""))) []

/-- Per-line body of the `parseCsvData` loop: `none` means the line is
skipped (blank, malformed, empty email, or no data at all). -/
def lineRow (ctx : HeaderCtx) (line : String) : Option CsvRow :=
  if isSkipLine line then none
  else
    let values := parseCsvLine line
    if values.length < ctx.headers.length then none
    else if values.getD ctx.emailIndex "" = "" then none
    else if (List.range ctx.headers.length).any (fun i => jsTrim (values.getD i "") ≠ "") then
      some (buildRow ctx.headers values)
    else none

/-- The data-line loop of `parseCsvData`. -/
def parseLoop (ctx : HeaderCtx) : List String → List CsvRow
  | [] => []
  | l :: ls =>
    match lineRow ctx l with
    | none => parseLoop ctx ls
    | some r => r :: parseLoop ctx ls

/-- Strip one leading BOM (`text.startsWith('\uFEFF') ?
text.substring(1) : text`). -/
def stripBom (s : String) : String :=
  match s.data with
  | '\uFEFF' :: rest => ⟨rest⟩
  | _ => s

/-- `parseCsvData` of the query routes: BOM strip, trim, split into lines,
header phase, then the per-line loop. -/
def parseCsvData (text label : String) (expected : List String) : List CsvRow :=
  let lines := (splitLinesL (jsTrimL (stripBom text).data)).map (fun cs => (⟨cs⟩ : String))
  match lines with
  | [] => []
  | first :: rest =>
    if jsTrim first = "" then []
    else
      match headerStage first label expected with
      | none => []
      | some ctx => if rest.isEmpty then [] else parseLoop ctx rest

/-- Per-line body of the standalone count endpoint's `parseCsvData`: same
loop but with no email column and no header requirements. -/
def lineRowCnt (headers : List String) (line : String) : Option CsvRow :=
  if isSkipLine line then none
  else
    let values := parseCsvLine line
    if values.length < headers.length then none
    else if (List.range headers.length).any (fun i => jsTrim (values.getD i "") ≠ "") then
      some (buildRow headers values)
    else none

def parseLoopCnt (headers : List String) : List String → List CsvRow
  | [] => []
  | l :: ls =>
    match lineRowCnt headers l with
    | none => parseLoopCnt headers ls
    | some r => r :: parseLoopCnt headers ls

/-- The standalone endpoint tests for a mojibake BOM (`'ï»¿'`) but then
removes a single character. -/
def stripBomCnt (s : String) : String :=
  if startsL "ï»¿".data s.data then ⟨s.data.tail⟩ else s

/-- `parseCsvData` of the standalone count endpoint: no header checks at
all, every data line with some content counts. -/
def parseCsvDataCnt (text : String) : List CsvRow :=
  let lines := (splitLinesL (jsTrimL (stripBomCnt text).data)).map (fun cs => (⟨cs⟩ : String))
  match lines with
  | [] => []
  | first :: rest =>
    if jsTrim first = "" then []
    else
      let headers := ((parseCsvLine first).map jsTrim).filter (· ≠ "")
      if headers.isEmpty then []
      else if rest.isEmpty then []
      else parseLoopCnt headers rest

/-- `getBaseName`: `path.basename(p, '.csv')` followed by the leading
alphanumeric run (`/^([a-zA-Z0-9]+)/`), or `''`. -/
def getBaseName (p : String) : String :=
  let base := (p.data.reverse.takeWhile (fun c => !(c == '/'))).reverse
  let stem :=
    if endsL ".csv".data base && decide (4 < base.length) then base.take (base.length - 4)
    else base
  ⟨stem.takeWhile Char.isAlphanum⟩

/-! ## The data model and the query engine -/

structure OrgConfig where
  orgName : String
  subDetails : String
deriving DecidableEq

structure DataSource where
  baseName : String
  dataMap : List (String × CsvRow)
deriving DecidableEq

structure AppData where
  dataSources : List DataSource
  additionalMap : List (String × CsvRow)
  paymentMap : List (String × CsvRow)
  confData : List (String × OrgConfig)
deriving DecidableEq

structure SearchResult where
  email : String
  status : String
  organization : String
  subscriptionDetails : String
  deviceLimit : Nat
  approver : String
  approvalDate : String
  expirationDate : String
deriving DecidableEq

def joinAmp : List String → String
  | [] => ""
  | [s] => s
  | s :: rest => s ++ " & " ++ joinAmp rest

/-- The trailing reset of `performExactSearch`: an `Invalid` result carries
no secondary data. -/
def exactFinal (r : SearchResult) : SearchResult :=
  if r.status = "Invalid" then
    { r with
      organization := "-", deviceLimit := 0, subscriptionDetails := "-"
      expirationDate := "-", approver := "-", approvalDate := "-" }
  else r

/-- `performExactSearch` of the query routes. -/
def performExactSearch (email : String) (app : AppData) : SearchResult :=
  let lowerCaseEmail := jsToLower email
  let r0 : SearchResult := ⟨email, "Invalid", "-", "-", 0, "-", "-", "-"⟩
  let foundInOrgs :=
    (app.dataSources.filter (fun ds => mapHas ds.dataMap lowerCaseEmail)).filterMap
      (fun ds => mapGet app.confData ds.baseName)
  let r1 :=
    if 0 < foundInOrgs.length then
      { r0 with
        status := "Valid"
        organization := joinAmp (foundInOrgs.map (·.orgName))
        subscriptionDetails := joinAmp (foundInOrgs.map (·.subDetails))
        deviceLimit := if foundInOrgs.length = 1 then 2 else if 2 ≤ foundInOrgs.length then 4 else 0
        expirationDate := "Rolling" }
    else r0
  match mapGet app.additionalMap lowerCaseEmail with
  | none => exactFinal r1
  | some row =>
    let rawApprovalDate := (rowGet row "rat").map jsTrim
    let validityPeriod := (rowGet row "pov").map jsTrim
    let calculatedExpDate := calculateExpirationDate rawApprovalDate validityPeriod
    let orgFromFile := jsTrim ((rowGet row "Org").getD "")
    let r2 :=
      if r1.status = "Invalid" ∧ calculatedExpDate ≠ "" ∧ calculatedExpDate ≠ "-" then
        let baseName := if orgFromFile ≠ "" then getBaseName orgFromFile else ""
        match mapGet app.confData baseName with
        | some conf =>
          { r1 with
            status := "Valid", deviceLimit := 2
            organization := conf.orgName, subscriptionDetails := conf.subDetails }
        | none => r1
      else r1
    let r3 :=
      if orgFromFile ≠ "" then
        { r2 with
          organization :=
            match mapGet app.confData (getBaseName orgFromFile) with
            | some conf => if conf.orgName = "" then orgFromFile else conf.orgName
            | none => orgFromFile }
      else r2
    let r4 :=
      { r3 with
        approver := orElseStr ((rowGet row "Approver").map jsTrim) "-"
        approvalDate := orElseStr rawApprovalDate "-" }
    let r5 :=
      if calculatedExpDate ≠ "" ∧ calculatedExpDate ≠ "-" then
        { r4 with expirationDate := calculatedExpDate }
      else r4
    exactFinal r5

/-! ### Fuzzy search -/

inductive ApiOutcome where
  | msg (s : String)
  | err (s : String)
deriving DecidableEq

def fuzzyLengthError : String :=
  "Fuzzy search requires at least 3 characters. / 模糊搜索至少需要3个字符。"

def fuzzyHitMessage : String :=
  "Potential matches found. Please enter a more specific or full email address for an exact search. / 找到潜在匹配项。请输入更完整或具体的邮箱地址以进行精确搜索。"

def fuzzyMissError (term : String) : String :=
  "No potential matches found for \"" ++ term ++ "\". / 未找到 \"" ++ term ++ "\" 的可能匹配项。"

/-- The scan of `performFuzzySearch`: every data source's keys, then the
additional keys, substring containment, short-circuiting. -/
def fuzzyFound (term : String) (app : AppData) : Bool :=
  app.dataSources.any (fun ds => ds.dataMap.any (fun p => jsIncludes p.1 term)) ||
  app.additionalMap.any (fun p => jsIncludes p.1 term)

/-- `performFuzzySearch` of the v1 query route (the claim's caller passes
the trimmed, lowercased term). -/
def performFuzzySearch (term : String) (app : AppData) : ApiOutcome :=
  if term.length < 3 then .err fuzzyLengthError
  else if fuzzyFound term app then .msg fuzzyHitMessage
  else .err (fuzzyMissError term)

/-! ### Expired accounts -/

structure ExpiredAccountInfo where
  email : String
  organization : String
  approver : String
  expirationDate : String
deriving DecidableEq

/-- Body of the `getExpiredAccounts` loop over the additional entries
(`today` is the formatted current date, kept as a parameter). -/
def expiredEntryOf (app : AppData) (today : String) (p : String × CsvRow) :
    Option ExpiredAccountInfo :=
  let expirationDate := calculateExpirationDate (rowGet p.2 "rat") (rowGet p.2 "pov")
  if expirationDate ≠ "" ∧ expirationDate ≠ "-" ∧ expirationDate ≠ "Rolling" ∧
      jsLe expirationDate today = true ∧
      app.dataSources.any (fun ds => mapHas ds.dataMap p.1) = true then
    some ⟨p.1, orElseStr (rowGet p.2 "Org") "Unknown", orElseStr (rowGet p.2 "Approver") "-",
          expirationDate⟩
  else none

/-- `getExpiredAccounts` of the main query route, with its optional
approver filter. -/
def getExpiredAccounts (app : AppData) (today : String) (approverFilter : Option String) :
    List ExpiredAccountInfo :=
  let base := app.additionalMap.filterMap (expiredEntryOf app today)
  match approverFilter with
  | none => base
  | some f =>
    if f ≠ "" ∧ jsToLower f ≠ "admin" then
      base.filter (fun a => jsToLower a.approver == jsToLower f)
    else base

/-! ### Quick audit -/

inductive QuickReason where
  | notRegistered
  | notPaid
deriving DecidableEq

structure QuickAuditAccountInfo where
  email : String
  rat : String
  approver : String
  pov : String
  reason : QuickReason
deriving DecidableEq

def notPaidThreshold : Int := 20250724

/-- The `Not Paid` test of `getQuickAuditAccounts`: trimmed `rat` parses to
a number that is neither falsy nor below the threshold, the email is in
some data source and not in the payment map. -/
def notPaidCond (app : AppData) (email : String) (row : CsvRow) : Bool :=
  let ratStr := (rowGet row "rat").map jsTrim
  let ratOk :=
    match ratStr with
    | none => false
    | some s =>
      if s = "" then false
      else
        match jsParseInt s with
        | none => false
        | some k => if k = 0 then false else decide (notPaidThreshold ≤ k)
  ratOk && app.dataSources.any (fun ds => mapHas ds.dataMap email) && !(mapHas app.paymentMap email)

def mkNotPaid (email : String) (row : CsvRow) : QuickAuditAccountInfo :=
  ⟨email,
   orElseStr ((rowGet row "rat").map jsTrim) "-",
   orElseStr ((rowGet row "Approver").map jsTrim) "-",
   orElseStr ((rowGet row "pov").map jsTrim) "-",
   .notPaid⟩

/-- First, independent `Not Paid` pass over the additional entries. -/
def auditPass1 (app : AppData) : List QuickAuditAccountInfo :=
  app.additionalMap.filterMap
    (fun p => if notPaidCond app p.1 p.2 then some (mkNotPaid p.1 p.2) else none)

def excludedBaseNames : List String := ["blueskyy", "parvis"]

/-- Inner loop of the `Not Registered` pass over one data source's keys,
threading the `addedEmails` set. -/
def auditPass2Keys (additional : List (String × CsvRow)) :
    List String → List String → List QuickAuditAccountInfo × List String
  | [], added => ([], added)
  | k :: ks, added =>
    if added.contains k || mapHas additional k then auditPass2Keys additional ks added
    else
      let (res, added') := auditPass2Keys additional ks (k :: added)
      (⟨k, "-", "-", "-", .notRegistered⟩ :: res, added')

/-- Outer loop of the `Not Registered` pass, skipping the deny-listed base
names. -/
def auditPass2 (additional : List (String × CsvRow)) :
    List DataSource → List String → List QuickAuditAccountInfo × List String
  | [], added => ([], added)
  | ds :: rest, added =>
    if excludedBaseNames.contains ds.baseName then auditPass2 additional rest added
    else
      let (res1, added1) := auditPass2Keys additional (ds.dataMap.map (·.1)) added
      let (res2, added2) := auditPass2 additional rest added1
      (res1 ++ res2, added2)

/-- `getQuickAuditAccounts`: the `Not Paid` pass, then the `Not Registered`
pass with de-duplication against everything already added. -/
def getQuickAuditAccounts (app : AppData) : List QuickAuditAccountInfo :=
  let p1 := auditPass1 app
  p1 ++ (auditPass2 app.additionalMap app.dataSources (p1.map (·.email))).1

/-! ## User-count pipelines

A directory is a list of `(file name, file content)` pairs in `readdir`
order. -/

abbrev Dir := List (String × String)

def dirGet (dir : Dir) (name : String) : Option String :=
  (dir.find? (fun p => p.1 == name)).map (·.2)

/-- `user.conf` parsing shared verbatim by both count implementations:
`key=value` lines, integer values only, defaults `udgr = 100`, `naud = 0`. -/
def parseUserConfLines (text : String) : Int × Int :=
  (splitOnCharL '\n' text.data).foldl
    (fun cfg lineCs =>
      let parts := (splitOnCharL '=' lineCs).map (fun cs => jsTrim ⟨cs⟩)
      let key := parts.getD 0 ""
      let val? := parts.get? 1
      let cfg :=
        if key = "udgr" then
          match val? with
          | some v => match jsParseInt v with | some r => (r, cfg.2) | none => cfg
          | none => cfg
        else cfg
      if key = "naud" then
        match val? with
        | some v => match jsParseInt v with | some r => (cfg.1, r) | none => cfg
        | none => cfg
      else cfg)
    (100, 0)

def userConfOf (dir : Dir) : Int × Int :=
  match dirGet dir "user.conf" with
  | none => (100, 0)
  | some text => parseUserConfLines text

/-- `Math.floor(totalRows * ((udgr || 100) / 100) + (naud || 0))`, computed
exactly. -/
def countFormula (totalRows : Nat) (udgr naud : Int) : Int :=
  let rate : Int := if udgr = 0 then 100 else udgr
  Int.fdiv ((totalRows : Int) * rate + 100 * naud) 100

def joinCommaL : List (List Char) → List Char
  | [] => []
  | [x] => x
  | x :: xs => x ++ ',' :: joinCommaL xs

/-- Org-config loading of the v1 route's `loadAndProcessData`: every
`.conf` file except `user.conf` and `apipwd.conf`, content split on the
first comma, both parts required. -/
def v1ConfData (dir : Dir) : List (String × OrgConfig) :=
  (dir.filter (fun f =>
      endsL ".conf".data f.1.data && !(f.1 == "user.conf") && !(f.1 == "apipwd.conf"))).foldl
    (fun cd f =>
      match splitOnCharL ',' f.2.data with
      | [] => cd
      | orgName :: restParts =>
        if (⟨orgName⟩ : String) ≠ "" ∧ restParts ≠ [] then
          mapSet cd (getBaseName f.1) ⟨jsTrim ⟨orgName⟩, jsTrim ⟨joinCommaL restParts⟩⟩
        else cd)
    []

def isCsvFile (name : String) : Bool := endsL ".csv".data name.data

/-- Main CSV files the v1 route reads: `.csv` files whose base name is not
`additional` (note: `payment` is not excluded there) with a known config
base name and non-blank content, each paired with its parsed rows. -/
def v1MainEntries (dir : Dir) : List (String × List CsvRow) :=
  (dir.filter (fun f => isCsvFile f.1 && !(getBaseName f.1 == "additional"))).filterMap
    (fun f =>
      if (mapGet (v1ConfData dir) (getBaseName f.1)).isSome ∧ jsTrim f.2 ≠ "" then
        some (getBaseName f.1, parseCsvData f.2 f.1 expectedMainHeaders)
      else none)

/-- `groupedData` update: concatenate onto the base name's existing rows. -/
def groupAdd (g : List (String × List CsvRow)) (b : String) (rows : List CsvRow) :
    List (String × List CsvRow) :=
  mapSet g b ((mapGet g b).getD [] ++ rows)

def v1Grouped (dir : Dir) : List (String × List CsvRow) :=
  (v1MainEntries dir).foldl (fun g e => if 0 < e.2.length then groupAdd g e.1 e.2 else g) []

/-- The email key a row is indexed under (`row['Email']?.trim().toLowerCase()`). -/
def emailKeyOf (row : CsvRow) : String := jsToLower (jsTrim ((rowGet row "Email").getD ""))

/-- One logical data source's index: rows inserted under their email key,
rows with a blank key dropped, later rows overwriting earlier ones. -/
def buildDataMap (rows : List CsvRow) : List (String × CsvRow) :=
  rows.foldl (fun m row => if emailKeyOf row ≠ "" then mapSet m (emailKeyOf row) row else m) []

def v1DataSources (dir : Dir) : List DataSource :=
  (v1Grouped dir).map (fun e => ⟨e.1, buildDataMap e.2⟩)

/-- `getUserCount` of the v1 query route: the summed sizes of the cached
data sources' maps through the count formula. -/
def getUserCountV1 (dir : Dir) : Int :=
  let cfg := userConfOf dir
  countFormula ((v1DataSources dir).foldl (fun s ds => s + ds.dataMap.length) 0) cfg.1 cfg.2

/-- The standalone count endpoint whitelists the base name of every
`.conf` file other than the three reserved ones, without reading it. -/
def stdKnownBaseNames (dir : Dir) : List String :=
  (dir.filter (fun f =>
      endsL ".conf".data f.1.data && !(f.1 == "user.conf") && !(f.1 == "userid.conf") &&
      !(f.1 == "apipwd.conf"))).map
    (fun f => getBaseName f.1)

/-- Main CSV files the standalone count endpoint reads: base name neither
`additional` nor `payment`, whitelisted, non-blank, parsed with the
header-free parser. -/
def stdMainEntries (dir : Dir) : List (String × List CsvRow) :=
  (dir.filter (fun f =>
      isCsvFile f.1 && !(getBaseName f.1 == "additional") && !(getBaseName f.1 == "payment"))).filterMap
    (fun f =>
      if (stdKnownBaseNames dir).contains (getBaseName f.1) ∧ jsTrim f.2 ≠ "" then
        some (getBaseName f.1, parseCsvDataCnt f.2)
      else none)

/-- `getUserCount` of the standalone count endpoint: parsed row counts
summed per file through the count formula. -/
def getUserCountStandalone (dir : Dir) : Int :=
  let cfg := userConfOf dir
  countFormula ((stdMainEntries dir).foldl (fun s e => s + e.2.length) 0) cfg.1 cfg.2

/-! ## The data repository cache (`cachedData` / `dataPromise`)

`getData`'s two module variables: `cachedData` holds a finished build,
`pendingLoad` says an unresolved `dataPromise` exists (after a successful
build the promise is resolved and irrelevant, since the `cachedData`
branch returns first). -/

structure RepoState where
  cachedData : Option AppData
  pendingLoad : Bool
deriving DecidableEq

inductive RepoEv where
  | call
  | succeed (d : AppData)
  | fail

def repoInit : RepoState := ⟨none, false⟩

/-- A `getData` call starts a fresh underlying load exactly when neither a
cache nor a pending build exists (the final branch of `getData`). -/
def callStartsLoad (s : RepoState) : Bool := s.cachedData.isNone && !s.pendingLoad

/-- What a `getData` call returns immediately: the memoized data when
present, otherwise the caller awaits the single pending build. -/
def callResult (s : RepoState) : Option AppData := s.cachedData

/-- One event of the cache's life: a call (the three branches of
`getData`), the pending build resolving (`cachedData = data`), or the
pending build rejecting (`dataPromise = null`). `none` means the event
cannot occur (no build is pending). -/
def repoStep (s : RepoState) : RepoEv → Option RepoState
  | .call =>
    some (if s.cachedData.isSome then s else if s.pendingLoad then s else ⟨s.cachedData, true⟩)
  | .succeed d => if s.pendingLoad then some ⟨some d, false⟩ else none
  | .fail => if s.pendingLoad then some ⟨s.cachedData, false⟩ else none

/-- States the cache can actually be in, starting empty. -/
inductive RepoReachable : RepoState → Prop
  | init : RepoReachable repoInit
  | step {s s' : RepoState} {e : RepoEv} :
      RepoReachable s → repoStep s e = some s' → RepoReachable s'

/-! ## Helper lemmas -/

theorem formatYMD_ne_empty (d : SimpleDate) : formatYMD d ≠ "" := by
  simp only [formatYMD, padDigits]
  intro h
  have hdata := congrArg String.data h
  simp at hdata

/-- The calculator's result is never the empty string, so the truthiness
tests `calculatedExpDate && …` in the routes reduce to `≠ '-'` tests. -/
theorem calcExp_ne_empty (a? v? : Option String) : calculateExpirationDate a? v? ≠ "" := by
  unfold calculateExpirationDate
  dsimp only
  repeat' split
  any_goals decide
  all_goals exact formatYMD_ne_empty _

/-! ## Claim C1 -/

def rowC1x : CsvRow :=
  [("Email", "a@b.c"), ("Approver", "x"), ("rat", "rolling"), ("pov", "12m"), ("Org", "alpha")]

def appC1x : AppData := ⟨[], [("a@b.c", rowC1x)], [], [("alpha", ⟨"Alpha", "Sub"⟩)]⟩

/-- C1 (counterexample): an email in no data source whose additional record
has the rolling approval date `"rolling"` — so its computed expiration is
`"Rolling"`, not a real `YYYYMMDD` date — is still upgraded to `Valid`,
because the code only tests the expiration against `'-'`. The claim says
the status should stay `Invalid` in every such case. -/
theorem c1_counterexample :
    appC1x.dataSources = [] ∧
    mapGet appC1x.additionalMap (jsToLower "a@b.c") = some rowC1x ∧
    calculateExpirationDate ((rowGet rowC1x "rat").map jsTrim) ((rowGet rowC1x "pov").map jsTrim) =
      "Rolling" ∧
    (performExactSearch "a@b.c" appC1x).status = "Valid" :=
  ⟨rfl, by decide, by decide, by decide⟩

/-- C1 (amended): for an email absent from every data source but present in
the additional map, exact search upgrades the status to `Valid` — with
device limit 2 and organization and subscription details from the resolved
config — exactly when the computed expiration is not `"-"` (a real date
*or* `"Rolling"`) and the org hint's leading-alphanumeric basename (the
empty string when the hint is blank) has a config entry; otherwise the
status stays `Invalid`. -/
theorem c1_amended (app : AppData) (email : String) (row : CsvRow)
    (h1 : ∀ ds ∈ app.dataSources, mapHas ds.dataMap (jsToLower email) = false)
    (h2 : mapGet app.additionalMap (jsToLower email) = some row) :
    ((performExactSearch email app).status = "Valid" ↔
      calculateExpirationDate ((rowGet row "rat").map jsTrim) ((rowGet row "pov").map jsTrim) ≠
          "-" ∧
      (mapGet app.confData
          (if jsTrim ((rowGet row "Org").getD "") ≠ ""
           then getBaseName (jsTrim ((rowGet row "Org").getD "")) else "")).isSome = true) ∧
    (∀ conf : OrgConfig,
      mapGet app.confData
          (if jsTrim ((rowGet row "Org").getD "") ≠ ""
           then getBaseName (jsTrim ((rowGet row "Org").getD "")) else "") = some conf →
      calculateExpirationDate ((rowGet row "rat").map jsTrim) ((rowGet row "pov").map jsTrim) ≠
          "-" →
      conf.orgName ≠ "" →
      (performExactSearch email app).deviceLimit = 2 ∧
      (performExactSearch email app).organization = conf.orgName ∧
      (performExactSearch email app).subscriptionDetails = conf.subDetails) := by
  have hfilter : app.dataSources.filter (fun ds => mapHas ds.dataMap (jsToLower email)) = [] :=
    List.filter_eq_nil_iff.mpr (fun ds hds => by simp [h1 ds hds])
  have hne : calculateExpirationDate ((rowGet row "rat").map jsTrim)
      ((rowGet row "pov").map jsTrim) ≠ "" := calcExp_ne_empty _ _
  by_cases hOrg : jsTrim ((rowGet row "Org").getD "") = ""
  · cases hconf : mapGet app.confData "" with
    | none =>
      by_cases hdash : calculateExpirationDate ((rowGet row "rat").map jsTrim)
          ((rowGet row "pov").map jsTrim) = "-"
      · constructor
        · simp [performExactSearch, hfilter, h2, hdash, hOrg, hconf, exactFinal]
        · intro conf _ hexp _
          exact absurd hdash hexp
      · constructor
        · simp [performExactSearch, hfilter, h2, hdash, hne, hOrg, hconf, exactFinal]
        · intro conf hconf2 _ _
          rw [if_neg (by simp [hOrg]), hconf] at hconf2
          exact absurd hconf2 (by simp)
    | some conf0 =>
      by_cases hdash : calculateExpirationDate ((rowGet row "rat").map jsTrim)
          ((rowGet row "pov").map jsTrim) = "-"
      · constructor
        · simp [performExactSearch, hfilter, h2, hdash, hOrg, hconf, exactFinal]
        · intro conf _ hexp _
          exact absurd hdash hexp
      · constructor
        · simp [performExactSearch, hfilter, h2, hdash, hne, hOrg, hconf, exactFinal]
        · intro conf hconf2 _ horg
          rw [if_neg (by simp [hOrg]), hconf] at hconf2
          cases hconf2
          simp [performExactSearch, hfilter, h2, hdash, hne, hOrg, hconf, exactFinal, horg]
  · cases hconf : mapGet app.confData (getBaseName (jsTrim ((rowGet row "Org").getD ""))) with
    | none =>
      by_cases hdash : calculateExpirationDate ((rowGet row "rat").map jsTrim)
          ((rowGet row "pov").map jsTrim) = "-"
      · constructor
        · simp [performExactSearch, hfilter, h2, hdash, hOrg, hconf, exactFinal]
        · intro conf _ hexp _
          exact absurd hdash hexp
      · constructor
        · simp [performExactSearch, hfilter, h2, hdash, hne, hOrg, hconf, exactFinal]
        · intro conf hconf2 _ _
          rw [if_pos hOrg, hconf] at hconf2
          exact absurd hconf2 (by simp)
    | some conf0 =>
      by_cases hdash : calculateExpirationDate ((rowGet row "rat").map jsTrim)
          ((rowGet row "pov").map jsTrim) = "-"
      · constructor
        · simp [performExactSearch, hfilter, h2, hdash, hOrg, hconf, exactFinal]
        · intro conf _ hexp _
          exact absurd hdash hexp
      · constructor
        · simp [performExactSearch, hfilter, h2, hdash, hne, hOrg, hconf, exactFinal]
        · intro conf hconf2 _ horg
          rw [if_pos hOrg, hconf] at hconf2
          cases hconf2
          simp [performExactSearch, hfilter, h2, hdash, hne, hOrg, hconf, exactFinal, horg]

def rowC1w : CsvRow :=
  [("Email", "w@x.y"), ("Approver", "x"), ("rat", "20240101"), ("pov", "12m"), ("Org", "alpha")]

def appC1w : AppData := ⟨[], [("w@x.y", rowC1w)], [], [("alpha", ⟨"Alpha", "Sub"⟩)]⟩

theorem c1_amended_witness :
    (performExactSearch "w@x.y" appC1w).status = "Valid" ∧
    (performExactSearch "w@x.y" appC1w).deviceLimit = 2 ∧
    (performExactSearch "w@x.y" appC1w).organization = "Alpha" ∧
    (performExactSearch "w@x.y" appC1w).subscriptionDetails = "Sub" := by
  have h := c1_amended appC1w "w@x.y" rowC1w (by decide) (by decide)
  have h2 := h.2 ⟨"Alpha", "Sub"⟩ (by decide) (by decide) (by decide)
  exact ⟨h.1.mpr ⟨by decide, by decide⟩, h2.1, h2.2.1, h2.2.2⟩

/-! ## Claim C2 -/

def rowC2x : CsvRow :=
  [("Email", "b@x.com"), ("Approver", "x"), ("rat", "20240101"), ("pov", "1m"), ("Org", "zeta")]

def appC2x : AppData :=
  ⟨[⟨"alpha", [("b@x.com", [("Email", "b@x.com")])]⟩],
   [("b@x.com", rowC2x)], [], [("alpha", ⟨"Alpha", "SubA"⟩)]⟩

/-- C2 (counterexample): the account is `Valid` from the main source
`alpha`, its additional record carries the non-empty org hint `"zeta"`, and
no config matches that hint's basename — yet the organization is replaced
by the raw hint `"zeta"` (`conf?.orgName || orgFromFile`). The claim says
the override happens only when a matching config exists. -/
theorem c2_counterexample :
    mapGet appC2x.additionalMap (jsToLower "b@x.com") = some rowC2x ∧
    jsTrim ((rowGet rowC2x "Org").getD "") = "zeta" ∧
    mapGet appC2x.confData (getBaseName "zeta") = none ∧
    (performExactSearch "b@x.com" appC2x).status = "Valid" ∧
    (performExactSearch "b@x.com" appC2x).organization = "zeta" :=
  ⟨by decide, by decide, by decide, by decide, by decide⟩

/-- C2 (amended): whenever the email's additional record carries a
non-empty org hint, exact search overrides the organization — replacing
even a `" & "`-joined multi-org string from main data sources — with the
matched config's `orgName` when a config with a non-empty `orgName`
matches the hint's leading-alphanumeric basename, and with the raw hint
itself otherwise. The override is visible whenever the final status is
`Valid`. -/
theorem c2_amended (app : AppData) (email : String) (row : CsvRow)
    (h2 : mapGet app.additionalMap (jsToLower email) = some row)
    (hOrg : jsTrim ((rowGet row "Org").getD "") ≠ "")
    (hValid : (performExactSearch email app).status = "Valid") :
    (performExactSearch email app).organization =
      (match mapGet app.confData (getBaseName (jsTrim ((rowGet row "Org").getD ""))) with
       | some conf =>
         if conf.orgName = "" then jsTrim ((rowGet row "Org").getD "") else conf.orgName
       | none => jsTrim ((rowGet row "Org").getD "")) := by
  have hfin : ∀ r : SearchResult, (exactFinal r).status = r.status := by
    intro r; unfold exactFinal; split <;> rfl
  have hfin2 : ∀ r : SearchResult, r.status = "Valid" → exactFinal r = r := by
    intro r h; unfold exactFinal; rw [if_neg (by rw [h]; decide)]
  simp only [performExactSearch, h2] at hValid ⊢
  rw [hfin] at hValid
  rw [hfin2 _ hValid]
  repeat' split
  all_goals rfl

def rowC2w : CsvRow :=
  [("Email", "v@x.y"), ("Approver", "a"), ("rat", "20240101"), ("pov", "1m"), ("Org", "beta")]

def appC2w : AppData :=
  ⟨[⟨"alpha", [("v@x.y", [("Email", "v@x.y")])]⟩],
   [("v@x.y", rowC2w)], [],
   [("alpha", ⟨"Alpha", "SA"⟩), ("beta", ⟨"Beta", "SB"⟩)]⟩

theorem c2_amended_witness : (performExactSearch "v@x.y" appC2w).organization = "Beta" := by
  have h := c2_amended appC2w "v@x.y" rowC2w (by decide) (by decide) (by decide)
  exact h.trans (by decide)

/-! ## Claim C4 -/

/-- Characterization of one push of the `getExpiredAccounts` loop. -/
theorem expiredEntryOf_eq_some (app : AppData) (today : String) (p : String × CsvRow)
    (y : ExpiredAccountInfo) :
    expiredEntryOf app today p = some y ↔
      (y = ⟨p.1, orElseStr (rowGet p.2 "Org") "Unknown", orElseStr (rowGet p.2 "Approver") "-",
            calculateExpirationDate (rowGet p.2 "rat") (rowGet p.2 "pov")⟩ ∧
       calculateExpirationDate (rowGet p.2 "rat") (rowGet p.2 "pov") ≠ "-" ∧
       calculateExpirationDate (rowGet p.2 "rat") (rowGet p.2 "pov") ≠ "Rolling" ∧
       jsLe (calculateExpirationDate (rowGet p.2 "rat") (rowGet p.2 "pov")) today = true ∧
       ∃ ds ∈ app.dataSources, mapHas ds.dataMap p.1 = true) := by
  unfold expiredEntryOf
  dsimp only
  split
  case isTrue h =>
    constructor
    · intro he
      cases he
      exact ⟨rfl, h.2.1, h.2.2.1, h.2.2.2.1, List.any_eq_true.mp h.2.2.2.2⟩
    · intro hy
      rw [hy.1]
  case isFalse h =>
    constructor
    · intro he
      exact absurd he (by simp)
    · intro hy
      exact absurd ⟨calcExp_ne_empty _ _, hy.2.1, hy.2.2.1, hy.2.2.2.1,
        List.any_eq_true.mpr hy.2.2.2.2⟩ h

/-- C4: the expired-accounts listing contains exactly the additional
entries whose computed expiration is a real date (`≠ "-"`, `≠ "Rolling"`),
is `≤ today` under string comparison, and whose email is in at least one
data source; a filter that is neither absent, empty nor the (case-
insensitive) `admin` sentinel additionally restricts to entries whose
approver matches it case-insensitively, while the admin view keeps all. -/
theorem c4_expired_characterization (app : AppData) (today : String) (f : Option String)
    (x : ExpiredAccountInfo) :
    x ∈ getExpiredAccounts app today f ↔
      ((∃ p ∈ app.additionalMap,
          x = ⟨p.1, orElseStr (rowGet p.2 "Org") "Unknown", orElseStr (rowGet p.2 "Approver") "-",
               calculateExpirationDate (rowGet p.2 "rat") (rowGet p.2 "pov")⟩ ∧
          calculateExpirationDate (rowGet p.2 "rat") (rowGet p.2 "pov") ≠ "-" ∧
          calculateExpirationDate (rowGet p.2 "rat") (rowGet p.2 "pov") ≠ "Rolling" ∧
          jsLe (calculateExpirationDate (rowGet p.2 "rat") (rowGet p.2 "pov")) today = true ∧
          ∃ ds ∈ app.dataSources, mapHas ds.dataMap p.1 = true) ∧
       (∀ fv, f = some fv → fv ≠ "" → jsToLower fv ≠ "admin" →
          jsToLower x.approver = jsToLower fv)) := by
  unfold getExpiredAccounts
  have hbase : x ∈ app.additionalMap.filterMap (expiredEntryOf app today) ↔
      ∃ p ∈ app.additionalMap,
        x = ⟨p.1, orElseStr (rowGet p.2 "Org") "Unknown", orElseStr (rowGet p.2 "Approver") "-",
             calculateExpirationDate (rowGet p.2 "rat") (rowGet p.2 "pov")⟩ ∧
        calculateExpirationDate (rowGet p.2 "rat") (rowGet p.2 "pov") ≠ "-" ∧
        calculateExpirationDate (rowGet p.2 "rat") (rowGet p.2 "pov") ≠ "Rolling" ∧
        jsLe (calculateExpirationDate (rowGet p.2 "rat") (rowGet p.2 "pov")) today = true ∧
        ∃ ds ∈ app.dataSources, mapHas ds.dataMap p.1 = true := by
    rw [List.mem_filterMap]
    constructor
    · intro ⟨p, hp, he⟩
      exact ⟨p, hp, (expiredEntryOf_eq_some app today p x).mp he⟩
    · intro ⟨p, hp, hy⟩
      exact ⟨p, hp, (expiredEntryOf_eq_some app today p x).mpr hy⟩
  cases f with
  | none => simpa using hbase
  | some fv =>
    dsimp only
    by_cases hf : fv ≠ "" ∧ jsToLower fv ≠ "admin"
    · rw [if_pos hf, List.mem_filter, hbase]
      constructor
      · intro ⟨hb, hm⟩
        exact ⟨hb, fun fv2 hfv2 _ _ => by
          cases hfv2
          simpa using hm⟩
      · intro ⟨hb, hm⟩
        exact ⟨hb, by simpa using hm fv rfl hf.1 hf.2⟩
    · rw [if_neg hf, hbase]
      constructor
      · intro hb
        refine ⟨hb, fun fv2 hfv2 hne hnadmin => ?_⟩
        cases hfv2
        exact absurd ⟨hne, hnadmin⟩ hf
      · intro h
        exact h.1

/-! ## Claim C5 -/

theorem mkNotPaid_email (e : String) (r : CsvRow) : (mkNotPaid e r).email = e := rfl

theorem auditPass1_mem (app : AppData) (x : QuickAuditAccountInfo) :
    x ∈ auditPass1 app ↔
      ∃ p ∈ app.additionalMap, notPaidCond app p.1 p.2 = true ∧ x = mkNotPaid p.1 p.2 := by
  unfold auditPass1
  rw [List.mem_filterMap]
  constructor
  · intro ⟨p, hp, hx⟩
    by_cases hc : notPaidCond app p.1 p.2 = true
    · rw [if_pos hc] at hx
      cases hx
      exact ⟨p, hp, hc, rfl⟩
    · rw [if_neg hc] at hx
      exact absurd hx (by simp)
  · intro ⟨p, hp, hc, hx⟩
    exact ⟨p, hp, by rw [if_pos hc, hx]⟩

theorem auditPass1_reason (app : AppData) (x : QuickAuditAccountInfo)
    (hx : x ∈ auditPass1 app) : x.reason = .notPaid := by
  obtain ⟨p, _, _, hx⟩ := (auditPass1_mem app x).mp hx
  rw [hx]
  rfl

theorem filterMap_email_sublist (f : String × CsvRow → Option QuickAuditAccountInfo)
    (hf : ∀ p x, f p = some x → x.email = p.1) :
    ∀ l : List (String × CsvRow), ((l.filterMap f).map (·.email)).Sublist (l.map (·.1))
  | [] => List.Sublist.slnil
  | p :: l => by
    cases hfp : f p with
    | none =>
      simpa [List.filterMap_cons, hfp] using (filterMap_email_sublist f hf l).cons p.1
    | some x =>
      have : x.email = p.1 := hf p x hfp
      simpa [List.filterMap_cons, hfp, this] using (filterMap_email_sublist f hf l).cons₂ p.1

theorem auditPass1_emails_nodup (app : AppData)
    (hN : (app.additionalMap.map (·.1)).Nodup) :
    ((auditPass1 app).map (·.email)).Nodup := by
  refine List.Nodup.sublist ?_ hN
  exact filterMap_email_sublist _
    (fun p x hx => by
      by_cases hc : notPaidCond app p.1 p.2 = true
      · rw [if_pos hc] at hx; cases hx; rfl
      · rw [if_neg hc] at hx; exact absurd hx (by simp))
    app.additionalMap

/-- Invariants of the inner `Not Registered` loop: produced entries are
`Not Registered`, their emails avoid the incoming `addedEmails` set, are
pairwise distinct, and land in the outgoing set, which also keeps every
incoming member. -/
theorem auditPass2Keys_spec (additional : List (String × CsvRow)) :
    ∀ (ks added : List String),
      ((auditPass2Keys additional ks added).1.map (·.email)).Nodup ∧
      (∀ x ∈ (auditPass2Keys additional ks added).1,
        x.reason = .notRegistered ∧ ¬ x.email ∈ added ∧
        x.email ∈ (auditPass2Keys additional ks added).2) ∧
      (∀ e ∈ added, e ∈ (auditPass2Keys additional ks added).2)
  | [], added => by
    refine ⟨List.nodup_nil, ?_, ?_⟩ <;> simp [auditPass2Keys]
  | k :: ks, added => by
    unfold auditPass2Keys
    by_cases hskip : (added.contains k || mapHas additional k) = true
    · rw [if_pos hskip]
      exact auditPass2Keys_spec additional ks added
    · rw [if_neg hskip]
      have hk : ¬ k ∈ added := by
        intro hmem
        exact hskip (by simp [hmem])
      obtain ⟨ih1, ih2, ih3⟩ := auditPass2Keys_spec additional ks (k :: added)
      refine ⟨?_, ?_, ?_⟩
      · dsimp only
        rw [List.map_cons, List.nodup_cons]
        refine ⟨?_, ih1⟩
        intro hmem
        obtain ⟨x, hx, hxe⟩ := List.mem_map.mp hmem
        exact (ih2 x hx).2.1 (by rw [hxe]; exact List.mem_cons_self k added)
      · intro x hx
        rcases List.mem_cons.mp hx with hx | hx
        · subst hx
          exact ⟨rfl, hk, ih3 k (List.mem_cons_self k added)⟩
        · obtain ⟨hr, hn, hi⟩ := ih2 x hx
          exact ⟨hr, fun hmem => hn (List.mem_cons_of_mem k hmem), hi⟩
      · intro e he
        exact ih3 e (List.mem_cons_of_mem k he)

/-- Same invariants lifted over all data sources. -/
theorem auditPass2_spec (additional : List (String × CsvRow)) :
    ∀ (dss : List DataSource) (added : List String),
      ((auditPass2 additional dss added).1.map (·.email)).Nodup ∧
      (∀ x ∈ (auditPass2 additional dss added).1,
        x.reason = .notRegistered ∧ ¬ x.email ∈ added ∧
        x.email ∈ (auditPass2 additional dss added).2) ∧
      (∀ e ∈ added, e ∈ (auditPass2 additional dss added).2)
  | [], added => by
    refine ⟨List.nodup_nil, ?_, ?_⟩ <;> simp [auditPass2]
  | ds :: dss, added => by
    unfold auditPass2
    by_cases hskip : excludedBaseNames.contains ds.baseName = true
    · rw [if_pos hskip]
      exact auditPass2_spec additional dss added
    · rw [if_neg hskip]
      obtain ⟨k1, k2, k3⟩ := auditPass2Keys_spec additional (ds.dataMap.map (·.1)) added
      obtain ⟨i1, i2, i3⟩ := auditPass2_spec additional dss
        (auditPass2Keys additional (ds.dataMap.map (·.1)) added).2
      refine ⟨?_, ?_, ?_⟩
      · dsimp only
        rw [List.map_append, List.nodup_append]
        refine ⟨k1, i1, ?_⟩
        intro e he1 he2
        obtain ⟨x, hx, hxe⟩ := List.mem_map.mp he1
        obtain ⟨y, hy, hye⟩ := List.mem_map.mp he2
        have hxin := (k2 x hx).2.2
        have hyout := (i2 y hy).2.1
        rw [hxe] at hxin
        rw [hye] at hyout
        exact hyout (by exact hxin)
      · intro x hx
        rcases List.mem_append.mp hx with hx | hx
        · obtain ⟨hr, hn, hi⟩ := k2 x hx
          exact ⟨hr, hn, i3 _ hi⟩
        · obtain ⟨hr, hn, hi⟩ := i2 x hx
          exact ⟨hr, fun hmem => hn (k3 _ hmem), hi⟩
      · intro e he
        exact i3 e (k3 e he)

/-- C5: quick audit lists every email at most once — none appears both as
`Not Paid` and `Not Registered`, nor twice when present in several data
sources — and an email satisfying the `Not Paid` conditions appears with
reason `Not Paid`. -/
theorem c5_no_double_count (app : AppData)
    (hN : (app.additionalMap.map (·.1)).Nodup) :
    ((getQuickAuditAccounts app).map (·.email)).Nodup ∧
    (∀ e row, mapGet app.additionalMap e = some row → notPaidCond app e row = true →
      (∃ x ∈ getQuickAuditAccounts app, x.email = e ∧ x.reason = .notPaid) ∧
      (∀ x ∈ getQuickAuditAccounts app, x.email = e → x.reason = .notPaid)) := by
  obtain ⟨p1, p2, p3⟩ :=
    auditPass2_spec app.additionalMap app.dataSources ((auditPass1 app).map (·.email))
  have hp1mem : ∀ e row, mapGet app.additionalMap e = some row →
      notPaidCond app e row = true → mkNotPaid e row ∈ auditPass1 app := by
    intro e row hget hc
    obtain ⟨q, hq, hqe⟩ : ∃ q ∈ app.additionalMap, q.1 = e ∧ q.2 = row := by
      unfold mapGet at hget
      cases hfind : app.additionalMap.find? (fun p => p.1 == e) with
      | none => rw [hfind] at hget; exact absurd hget (by simp)
      | some q =>
        rw [hfind] at hget
        have hqmem := List.mem_of_find?_eq_some hfind
        have hqkey := List.find?_some hfind
        refine ⟨q, hqmem, eq_of_beq (by simpa using hqkey), ?_⟩
        simpa using hget
    refine (auditPass1_mem app _).mpr ⟨q, hq, ?_, ?_⟩
    · rw [hqe.1, hqe.2]; exact hc
    · rw [hqe.1, hqe.2]
  constructor
  · unfold getQuickAuditAccounts
    dsimp only
    rw [List.map_append, List.nodup_append]
    refine ⟨auditPass1_emails_nodup app hN, p1, ?_⟩
    intro e he1 he2
    obtain ⟨y, hy, hye⟩ := List.mem_map.mp he2
    exact (p2 y hy).2.1 (by rw [hye]; exact he1)
  · intro e row hget hc
    have hmk := hp1mem e row hget hc
    constructor
    · refine ⟨mkNotPaid e row, ?_, rfl, rfl⟩
      unfold getQuickAuditAccounts
      exact List.mem_append_left _ hmk
    · intro x hx hxe
      rcases List.mem_append.mp hx with hx | hx
      · exact auditPass1_reason app x hx
      · have := (p2 x hx).2.1
        rw [hxe] at this
        exact absurd (List.mem_map.mpr ⟨mkNotPaid e row, hmk, rfl⟩) this

def appC5w : AppData :=
  ⟨[⟨"alpha", [("p@x.com", [("Email", "p@x.com")]), ("q@x.com", [("Email", "q@x.com")])]⟩,
    ⟨"beta", [("q@x.com", [("Email", "q@x.com")])]⟩],
   [("p@x.com", [("Email", "p@x.com"), ("Approver", "a"), ("rat", "20250801"), ("pov", "1m")])],
   [], [("alpha", ⟨"Alpha", "SA"⟩), ("beta", ⟨"Beta", "SB"⟩)]⟩

theorem c5_no_double_count_witness :
    ((getQuickAuditAccounts appC5w).map (·.email)).Nodup ∧
    (∃ x ∈ getQuickAuditAccounts appC5w, x.email = "p@x.com" ∧ x.reason = .notPaid) := by
  have h := c5_no_double_count appC5w (by decide)
  refine ⟨h.1, ?_⟩
  exact (h.2 "p@x.com"
    [("Email", "p@x.com"), ("Approver", "a"), ("rat", "20250801"), ("pov", "1m")]
    (by decide) (by decide)).1

/-! ## Claim C8 -/

/-- C8: for terms of length ≥ 3, fuzzy search reveals only found/not-found.
Any two data states that both contain a matching indexed email produce the
identical fixed hit message — independent of which or how many emails
matched — and on a miss the output is the fixed function of the caller's
own term alone (`fuzzyMissError term`), the same for every data state, so
no stored email can appear in it. -/
theorem c8_fuzzy_noninterference (term : String) (a1 a2 : AppData)
    (hlen : 3 ≤ term.length) :
    (fuzzyFound term a1 = true → fuzzyFound term a2 = true →
      performFuzzySearch term a1 = performFuzzySearch term a2 ∧
      performFuzzySearch term a1 = .msg fuzzyHitMessage) ∧
    (fuzzyFound term a1 = false → fuzzyFound term a2 = false →
      performFuzzySearch term a1 = performFuzzySearch term a2 ∧
      performFuzzySearch term a1 = .err (fuzzyMissError term)) := by
  have hnl : ¬ term.length < 3 := not_lt.mpr hlen
  constructor
  · intro h1 h2
    constructor <;> simp [performFuzzySearch, hnl, h1, h2]
  · intro h1 h2
    constructor <;> simp [performFuzzySearch, hnl, h1, h2]

def appC8a : AppData :=
  ⟨[⟨"alpha", [("abc@x.com", [("Email", "abc@x.com")])]⟩], [], [], [("alpha", ⟨"A", "S"⟩)]⟩

def appC8b : AppData :=
  ⟨[], [("xabcy@z.com", [("Email", "xabcy@z.com")])], [], []⟩

theorem c8_fuzzy_noninterference_witness :
    performFuzzySearch "abc" appC8a = performFuzzySearch "abc" appC8b ∧
    performFuzzySearch "abc" appC8a = .msg fuzzyHitMessage := by
  have h := c8_fuzzy_noninterference "abc" appC8a appC8b (by decide)
  exact h.1 (by decide) (by decide)

/-! ## Claim C7 -/

/-- Reachable cache states never pair a memoized result with a pending
build. -/
theorem repoReachable_inv (s : RepoState) (hs : RepoReachable s) :
    ¬(s.cachedData.isSome = true ∧ s.pendingLoad = true) := by
  induction hs with
  | init => simp [repoInit]
  | step hr hstep ih =>
    rename_i s0 s' e
    cases e with
    | call =>
      simp only [repoStep, Option.some.injEq] at hstep
      by_cases hc : s0.cachedData.isSome = true
      · rw [if_pos hc] at hstep
        rw [← hstep]
        exact ih
      · rw [if_neg hc] at hstep
        by_cases hp : s0.pendingLoad = true
        · rw [if_pos hp] at hstep
          rw [← hstep]
          exact ih
        · rw [if_neg hp] at hstep
          rw [← hstep]
          intro hcontra
          exact hc (by simpa using hcontra.1)
    | succeed d =>
      simp only [repoStep] at hstep
      by_cases hp : s0.pendingLoad = true
      · rw [if_pos hp] at hstep
        simp only [Option.some.injEq] at hstep
        rw [← hstep]
        simp
      · rw [if_neg hp] at hstep
        exact absurd hstep (by simp)
    | fail =>
      simp only [repoStep] at hstep
      by_cases hp : s0.pendingLoad = true
      · rw [if_pos hp] at hstep
        simp only [Option.some.injEq] at hstep
        rw [← hstep]
        simp
      · rw [if_neg hp] at hstep
        exact absurd hstep (by simp)

/-- C7: the cache moves only through empty → loading → loaded. In every
reachable state: (a) a memoized result and a pending build never coexist,
so the states are exactly empty, loading, loaded; (b) while a build is
pending, a call joins it — the state is unchanged and no new load starts;
(c) once loaded with `d`, calls return `d`, start no load, and every
enabled event leaves the state untouched (loaded is terminal); (d) a
failure of the pending build empties the cache, and from the emptied state
the next call starts a fresh load. -/
theorem c7_cache_state_machine (s : RepoState) (hs : RepoReachable s) :
    (¬(s.cachedData.isSome = true ∧ s.pendingLoad = true)) ∧
    (s.pendingLoad = true → repoStep s .call = some s ∧ callStartsLoad s = false) ∧
    (∀ d, s.cachedData = some d →
      repoStep s .call = some s ∧ callResult s = some d ∧ callStartsLoad s = false ∧
      (∀ e s', repoStep s e = some s' → s' = s)) ∧
    (s.pendingLoad = true →
      repoStep s .fail = some ⟨none, false⟩ ∧ callStartsLoad ⟨none, false⟩ = true) := by
  have hinv := repoReachable_inv s hs
  obtain ⟨cached, pending⟩ := s
  refine ⟨hinv, ?_, ?_, ?_⟩
  · intro hp
    cases hc : cached with
    | some d =>
      exact absurd ⟨by simp [hc], hp⟩ hinv
    | none =>
      subst hp hc
      exact ⟨by simp [repoStep], by simp [callStartsLoad]⟩
  · intro d hd
    subst hd
    have hp : pending = false := by
      by_contra hp
      exact hinv ⟨by simp, by simpa using hp⟩
    subst hp
    refine ⟨by simp [repoStep], rfl, by simp [callStartsLoad], ?_⟩
    intro e s' hstep
    cases e with
    | call =>
      simp only [repoStep, Option.some.injEq] at hstep
      rw [← hstep]
      simp
    | succeed d2 => simp [repoStep] at hstep
    | fail => simp [repoStep] at hstep
  · intro hp
    subst hp
    have hc : cached = none := by
      cases hc : cached with
      | none => rfl
      | some d => exact absurd ⟨by simp [hc], rfl⟩ hinv
    subst hc
    exact ⟨by simp [repoStep], by simp [callStartsLoad]⟩

def appC7w : AppData := ⟨[], [], [], []⟩

theorem c7_cache_state_machine_witness :
    callResult ⟨some appC7w, false⟩ = some appC7w ∧
    callStartsLoad ⟨some appC7w, false⟩ = false ∧
    repoStep ⟨some appC7w, false⟩ .call = some ⟨some appC7w, false⟩ := by
  have hreach : RepoReachable ⟨some appC7w, false⟩ :=
    RepoReachable.step (s := ⟨none, true⟩) (e := .succeed appC7w)
      (RepoReachable.step (s := repoInit) (e := .call) RepoReachable.init (by decide))
      (by decide)
  have h := c7_cache_state_machine ⟨some appC7w, false⟩ hreach
  have h3 := h.2.2.1 appC7w rfl
  exact ⟨h3.2.1, h3.2.2.1, h3.1⟩

/-! ## Claim C10 -/

theorem mapGet_mem {α : Type} (l : List (String × α)) (e : String) (v : α)
    (h : mapGet l e = some v) : (e, v) ∈ l := by
  unfold mapGet at h
  cases hfind : l.find? (fun p => p.1 == e) with
  | none => rw [hfind] at h; exact absurd h (by simp)
  | some q =>
    rw [hfind] at h
    have hqmem := List.mem_of_find?_eq_some hfind
    have hqkey := List.find?_some hfind
    have h1 : q.1 = e := eq_of_beq (by simpa using hqkey)
    have h2 : q.2 = v := by simpa using h
    have : q = (e, v) := by
      obtain ⟨q1, q2⟩ := q
      simp only at h1 h2
      rw [h1, h2]
    rw [← this]
    exact hqmem

theorem mapGet_of_mem_nodup {α : Type} :
    ∀ (l : List (String × α)) (e : String) (v : α),
      (l.map (·.1)).Nodup → (e, v) ∈ l → mapGet l e = some v
  | [], _, _, _, h => absurd h (by simp)
  | p :: l, e, v, hN, h => by
    rw [List.map_cons] at hN
    have hkeys := List.nodup_cons.mp hN
    rcases List.mem_cons.mp h with h | h
    · rw [← h]
      unfold mapGet
      rw [List.find?_cons_of_pos _ (by simp)]
      rfl
    · have hep : ¬ (p.1 == e) = true := by
        intro hbeq
        have he : p.1 = e := eq_of_beq hbeq
        have hmem : e ∈ l.map (·.1) := List.mem_map.mpr ⟨(e, v), h, rfl⟩
        rw [← he] at hmem
        exact hkeys.1 hmem
      have ih := mapGet_of_mem_nodup l e v hkeys.2 h
      have hepf : (p.1 == e) = false := by
        cases hq : (p.1 == e) with
        | true => exact absurd hq hep
        | false => rfl
      unfold mapGet at ih ⊢
      simp only [List.find?, hepf]
      exact ih

/-- The `Not Paid` guard, spelled as the claim does: succeeds exactly when
`parseInt` of the trimmed `rat` produces a value at or above the
threshold. -/
theorem notPaidCond_iff (app : AppData) (e : String) (row : CsvRow)
    (hmain : app.dataSources.any (fun ds => mapHas ds.dataMap e) = true)
    (hpay : mapHas app.paymentMap e = false) :
    notPaidCond app e row = true ↔
      ∃ k : Int, jsParseInt (jsTrim ((rowGet row "rat").getD "")) = some k ∧
        notPaidThreshold ≤ k := by
  unfold notPaidCond
  rw [hmain, hpay]
  cases hrat : rowGet row "rat" with
  | none =>
    have hp0 : jsParseInt "" = none := rfl
    have ht : jsTrim "" = "" := rfl
    simp [hrat, hp0, ht]
  | some s =>
    by_cases hs : jsTrim s = ""
    · have hp0 : jsParseInt "" = none := rfl
      simp [hrat, hs, hp0]
    · cases hparse : jsParseInt (jsTrim s) with
      | none => simp [hrat, hs, hparse]
      | some k =>
        by_cases hk : k = 0
        · subst hk
          simp [hrat, hs, hparse, notPaidThreshold]
        · simp [hrat, hs, hparse, hk]

def rowC10x : CsvRow :=
  [("Email", "e@x.com"), ("Approver", "a"), ("rat", "+20250724"), ("pov", "1m")]

def appC10x : AppData :=
  ⟨[⟨"alpha", [("e@x.com", [("Email", "e@x.com")])]⟩],
   [("e@x.com", rowC10x)], [], [("alpha", ⟨"Alpha", "S"⟩)]⟩

/-- C10 (counterexample): the rat string `"+20250724"` starts with the
non-digit `'+'`, yet the entry is swept into the `Not Paid` pass, because
JS `parseInt` accepts an optional sign before the digit prefix. The claim
says strings starting with a non-digit are excluded. -/
theorem c10_counterexample :
    rowGet rowC10x "rat" = some "+20250724" ∧
    ("+20250724".data.headD ' ').isDigit = false ∧
    (getQuickAuditAccounts appC10x).map (fun x => (x.email, x.rat, x.reason)) =
      [("e@x.com", "+20250724", .notPaid)] :=
  ⟨by decide, by decide, by decide⟩

/-- C10 (amended): for an additional entry that is in some data source and
not in the payment map, the `Not Paid` pass includes it exactly when JS
`parseInt` applied to the trimmed rat string — an optional single `+`/`-`
sign followed by the longest decimal-digit prefix, `NaN` otherwise —
yields a value ≥ 20250724. Digit-prefixed strings with trailing garbage
(e.g. `"20250801x"`) qualify when the prefix is large enough; empty
strings, strings with no digit after the optional sign, and values
parsing to 0, to a negative number, or below the threshold are excluded. -/
theorem c10_amended (app : AppData) (e : String) (row : CsvRow)
    (hN : (app.additionalMap.map (·.1)).Nodup)
    (hget : mapGet app.additionalMap e = some row)
    (hmain : app.dataSources.any (fun ds => mapHas ds.dataMap e) = true)
    (hpay : mapHas app.paymentMap e = false) :
    (∃ x ∈ getQuickAuditAccounts app, x.email = e ∧ x.reason = .notPaid) ↔
      ∃ k : Int, jsParseInt (jsTrim ((rowGet row "rat").getD "")) = some k ∧
        notPaidThreshold ≤ k := by
  rw [← notPaidCond_iff app e row hmain hpay]
  constructor
  · intro ⟨x, hx, hxe, hxr⟩
    rcases List.mem_append.mp hx with hx | hx
    · obtain ⟨p, hp, hc, hxeq⟩ := (auditPass1_mem app x).mp hx
      have hpe : p.1 = e := by rw [← hxe, hxeq]; rfl
      have hrow : p.2 = row := by
        have hget2 : mapGet app.additionalMap p.1 = some p.2 :=
          mapGet_of_mem_nodup app.additionalMap p.1 p.2 hN hp
        rw [hpe, hget] at hget2
        simpa using hget2.symm
      rw [hpe, hrow] at hc
      exact hc
    · obtain ⟨p2spec, _, _⟩ :=
        auditPass2_spec app.additionalMap app.dataSources ((auditPass1 app).map (·.email))
      have := (auditPass2_spec app.additionalMap app.dataSources
        ((auditPass1 app).map (·.email))).2.1 x hx
      rw [hxr] at this
      exact absurd this.1 (by simp)
  · intro hc
    refine ⟨mkNotPaid e row, List.mem_append_left _ ?_, rfl, rfl⟩
    exact (auditPass1_mem app _).mpr ⟨(e, row), mapGet_mem _ _ _ hget, hc, rfl⟩

def rowC10w : CsvRow :=
  [("Email", "g@x.com"), ("Approver", "a"), ("rat", "20250801x"), ("pov", "1m")]

def appC10w : AppData :=
  ⟨[⟨"alpha", [("g@x.com", [("Email", "g@x.com")])]⟩],
   [("g@x.com", rowC10w)], [], [("alpha", ⟨"Alpha", "S"⟩)]⟩

theorem c10_amended_witness :
    ∃ x ∈ getQuickAuditAccounts appC10w, x.email = "g@x.com" ∧ x.reason = .notPaid := by
  have h := c10_amended appC10w "g@x.com" rowC10w (by decide) (by decide) (by decide) (by decide)
  exact h.mpr ⟨20250801, by decide, by decide⟩

/-! ## Claim C9 -/

theorem parseLoop_append (ctx : HeaderCtx) (a b : List String) :
    parseLoop ctx (a ++ b) = parseLoop ctx a ++ parseLoop ctx b := by
  induction a with
  | nil => rfl
  | cons l ls ih =>
    simp only [List.cons_append, parseLoop]
    cases lineRow ctx l <;> simp [ih]

/-- The malformed-line kinds the claim names are exactly skips of the
per-line body: blank or comma-only lines, lines with fewer parsed fields
than headers, and lines with an empty email field all yield `none`. -/
theorem lineRow_skips (ctx : HeaderCtx) (line : String) :
    (isSkipLine line = true → lineRow ctx line = none) ∧
    ((parseCsvLine line).length < ctx.headers.length → lineRow ctx line = none) ∧
    ((parseCsvLine line).getD ctx.emailIndex "" = "" → lineRow ctx line = none) := by
  refine ⟨?_, ?_, ?_⟩
  · intro h
    unfold lineRow
    rw [if_pos h]
  · intro h
    unfold lineRow
    by_cases hskip : isSkipLine line = true
    · rw [if_pos hskip]
    · rw [if_neg hskip]
      dsimp only
      rw [if_pos h]
  · intro h
    unfold lineRow
    by_cases hskip : isSkipLine line = true
    · rw [if_pos hskip]
    · rw [if_neg hskip]
      dsimp only
      by_cases hlen : (parseCsvLine line).length < ctx.headers.length
      · rw [if_pos hlen]
      · rw [if_neg hlen, if_pos h]

/-- C9: the tabular loader is total — it returns a (possibly empty) row
list for every input — and skipping is local: deleting a data line that
the per-line body rejects (blank, too few fields, empty email, no data)
never changes the rows produced from the other lines, so one malformed
line can never abort the load. The texts are constrained through the
loader's own line-splitting (`h1`, `h2`): `text` has the malformed line
`x` between `ls1` and `ls2`, `text'` is identical without it. -/
theorem c9_line_skip_locality (text text' label : String) (expected : List String)
    (hl x : String) (ls1 ls2 : List String)
    (h1 : (splitLinesL (jsTrimL (stripBom text).data)).map (fun cs => (⟨cs⟩ : String)) =
      hl :: (ls1 ++ x :: ls2))
    (h2 : (splitLinesL (jsTrimL (stripBom text').data)).map (fun cs => (⟨cs⟩ : String)) =
      hl :: (ls1 ++ ls2))
    (hbad : ∀ ctx, headerStage hl label expected = some ctx → lineRow ctx x = none) :
    parseCsvData text label expected = parseCsvData text' label expected := by
  unfold parseCsvData
  rw [h1, h2]
  dsimp only
  by_cases htrim : jsTrim hl = ""
  · rw [if_pos htrim, if_pos htrim]
  · rw [if_neg htrim, if_neg htrim]
    cases hctx : headerStage hl label expected with
    | none => rfl
    | some ctx =>
      dsimp only
      have hbadx := hbad ctx hctx
      rw [if_neg (by simp)]
      cases hemp : (ls1 ++ ls2).isEmpty with
      | true =>
        obtain ⟨he1, he2⟩ := List.append_eq_nil.mp (List.isEmpty_iff.mp hemp)
        subst he1
        subst he2
        rw [if_pos rfl]
        simp [parseLoop, hbadx]
      | false =>
        rw [if_neg (by simp [hemp])]
        rw [show x :: ls2 = [x] ++ ls2 from rfl]
        rw [parseLoop_append, parseLoop_append, parseLoop_append]
        simp [parseLoop, hbadx]

def c9Text : String := "Email,Product Configurations\na@b.c,plan\noops\nc@d.e,plan2"
def c9TextGood : String := "Email,Product Configurations\na@b.c,plan\nc@d.e,plan2"
def c9Ctx : HeaderCtx := ⟨["Email", "Product Configurations"], "Email", 0⟩

theorem c9_line_skip_locality_witness :
    parseCsvData c9Text "main.csv" expectedMainHeaders =
      parseCsvData c9TextGood "main.csv" expectedMainHeaders ∧
    parseCsvData c9Text "main.csv" expectedMainHeaders =
      [[("Email", "a@b.c"), ("Product Configurations", "plan")],
       [("Email", "c@d.e"), ("Product Configurations", "plan2")]] := by
  constructor
  · refine c9_line_skip_locality c9Text c9TextGood "main.csv" expectedMainHeaders
      "Email,Product Configurations" "oops" ["a@b.c,plan"] ["c@d.e,plan2"]
      (by decide) (by decide) ?_
    intro ctx hctx
    have hc : ctx = c9Ctx := by
      have hh : headerStage "Email,Product Configurations" "main.csv" expectedMainHeaders =
          some c9Ctx := by decide
      rw [hh] at hctx
      exact (Option.some.injEq _ _).mp hctx.symm
    rw [hc]
    decide
  · decide

/-! ## Claim C6: digit-string arithmetic -/

theorem digitChar_toNat (d : Nat) (hd : d < 10) : (digitChar d).toNat = 48 + d := by
  interval_cases d <;> decide

theorem digitChar_isDigit (n : Nat) : (digitChar n).isDigit = true := by
  unfold digitChar
  split <;> decide

theorem padDigits_length : ∀ (k n : Nat), (padDigits k n).length = k
  | 0, _ => rfl
  | k + 1, n => by
    show (padDigits k n).length + 1 = k + 1
    rw [padDigits_length k n]

theorem padDigits_isDigit : ∀ (k n : Nat), ∀ c ∈ padDigits k n, c.isDigit = true
  | 0, _, c, hc => absurd hc (by simp [padDigits])
  | k + 1, n, c, hc => by
    rcases List.mem_cons.mp hc with h | h
    · rw [h]
      exact digitChar_isDigit _
    · exact padDigits_isDigit k n c h

theorem digitsValL_foldl (ds : List Char) :
    ∀ a : Nat, ds.foldl (fun x c => x * 10 + (c.toNat - 48)) a =
      a * 10 ^ ds.length + digitsValL ds := by
  induction ds with
  | nil => intro a; simp [digitsValL]
  | cons c ds ih =>
    intro a
    show ds.foldl _ (a * 10 + (c.toNat - 48)) = a * 10 ^ (ds.length + 1) + digitsValL (c :: ds)
    have hh : digitsValL (c :: ds) = (c.toNat - 48) * 10 ^ ds.length + digitsValL ds := by
      show ds.foldl _ (0 * 10 + (c.toNat - 48)) = _
      rw [show 0 * 10 + (c.toNat - 48) = c.toNat - 48 by omega]
      exact ih (c.toNat - 48)
    rw [ih (a * 10 + (c.toNat - 48)), hh]
    ring

theorem digitsValL_padDigits : ∀ (k n : Nat), digitsValL (padDigits k n) = n % 10 ^ k
  | 0, n => by simp [padDigits, digitsValL]; omega
  | k + 1, n => by
    have hx : n / 10 ^ k % 10 < 10 := Nat.mod_lt _ (by omega)
    have hdv : (digitChar (n / 10 ^ k % 10)).toNat - 48 = n / 10 ^ k % 10 := by
      rw [digitChar_toNat _ hx]
      omega
    show digitsValL (digitChar (n / 10 ^ k % 10) :: padDigits k n) = n % 10 ^ (k + 1)
    have h1 : digitsValL (digitChar (n / 10 ^ k % 10) :: padDigits k n) =
        ((digitChar (n / 10 ^ k % 10)).toNat - 48) * 10 ^ (padDigits k n).length +
          digitsValL (padDigits k n) := by
      show (padDigits k n).foldl _ (0 * 10 + ((digitChar (n / 10 ^ k % 10)).toNat - 48)) = _
      rw [show 0 * 10 + ((digitChar (n / 10 ^ k % 10)).toNat - 48) =
        (digitChar (n / 10 ^ k % 10)).toNat - 48 by omega]
      exact digitsValL_foldl _ _
    rw [h1, hdv, padDigits_length, digitsValL_padDigits k n, pow_succ, Nat.mod_mul]
    ring

theorem padDigits_mod : ∀ (k n : Nat), padDigits k n = padDigits k (n % 10 ^ k)
  | 0, _ => rfl
  | k + 1, n => by
    have hP : 0 < 10 ^ k := Nat.pos_pow_of_pos k (by omega)
    have h1 : n % 10 ^ (k + 1) / 10 ^ k = n / 10 ^ k % 10 := by
      rw [pow_succ, Nat.mod_mul, Nat.add_mul_div_left _ _ hP,
        Nat.div_eq_of_lt (Nat.mod_lt _ hP)]
      omega
    have h2 : n % 10 ^ (k + 1) % 10 ^ k = n % 10 ^ k := by
      rw [pow_succ]
      exact Nat.mod_mod_of_dvd n (dvd_mul_right _ _)
    show digitChar (n / 10 ^ k % 10) :: padDigits k n =
      digitChar (n % 10 ^ (k + 1) / 10 ^ k % 10) :: padDigits k (n % 10 ^ (k + 1))
    have htail : padDigits k (n % 10 ^ (k + 1)) = padDigits k n := by
      rw [padDigits_mod k (n % 10 ^ (k + 1)), h2, ← padDigits_mod k n]
    rw [htail, h1]
    have : n / 10 ^ k % 10 % 10 = n / 10 ^ k % 10 := Nat.mod_mod_of_dvd _ dvd_rfl
    rw [this]

theorem padDigits_append : ∀ (a : Nat) (x : Nat) (b : Nat) (r : Nat), r < 10 ^ b →
    padDigits a x ++ padDigits b r = padDigits (a + b) (x * 10 ^ b + r)
  | 0, x, b, r, hr => by
    show padDigits b r = padDigits (0 + b) (x * 10 ^ b + r)
    rw [Nat.zero_add, padDigits_mod b (x * 10 ^ b + r), Nat.add_comm (x * 10 ^ b) r,
      Nat.add_mul_mod_self_right, Nat.mod_eq_of_lt hr]
  | a + 1, x, b, r, hr => by
    show digitChar (x / 10 ^ a % 10) :: (padDigits a x ++ padDigits b r) =
      padDigits (a + 1 + b) (x * 10 ^ b + r)
    rw [padDigits_append a x b r hr]
    have hkey : (x * 10 ^ b + r) / 10 ^ (a + b) = x / 10 ^ a := by
      have h1 : (x * 10 ^ b + r) / 10 ^ b = x := by
        rw [Nat.add_comm]
        rw [Nat.add_mul_div_right _ _ (Nat.pos_pow_of_pos b (by omega))]
        rw [Nat.div_eq_of_lt hr]
        omega
      have h2 : 10 ^ (a + b) = 10 ^ b * 10 ^ a := by
        rw [pow_add]
        ring
      rw [h2, ← Nat.div_div_eq_div_mul, h1]
    have hshape : a + 1 + b = (a + b) + 1 := by omega
    rw [hshape]
    show digitChar (x / 10 ^ a % 10) :: padDigits (a + b) (x * 10 ^ b + r) =
      digitChar ((x * 10 ^ b + r) / 10 ^ (a + b) % 10) :: padDigits (a + b) (x * 10 ^ b + r)
    rw [hkey]

theorem jsLtL_padDigits : ∀ (k x y : Nat), x < 10 ^ k → y < 10 ^ k →
    (jsLtL (padDigits k x) (padDigits k y) = true ↔ x < y)
  | 0, x, y, hx, hy => by
    rw [pow_zero] at hx hy
    have hx0 : x = 0 := by omega
    have hy0 : y = 0 := by omega
    subst hx0
    subst hy0
    simp [padDigits, jsLtL]
  | k + 1, x, y, hx, hy => by
    have hP : 0 < 10 ^ k := Nat.pos_pow_of_pos k (by omega)
    have hx10 : x < 10 ^ k * 10 := by rw [← pow_succ]; exact hx
    have hy10 : y < 10 ^ k * 10 := by rw [← pow_succ]; exact hy
    have hxd : x / 10 ^ k < 10 := Nat.div_lt_of_lt_mul (by omega)
    have hyd : y / 10 ^ k < 10 := Nat.div_lt_of_lt_mul (by omega)
    have hxm : x / 10 ^ k % 10 = x / 10 ^ k := Nat.mod_eq_of_lt hxd
    have hym : y / 10 ^ k % 10 = y / 10 ^ k := Nat.mod_eq_of_lt hyd
    have hxe := Nat.div_add_mod x (10 ^ k)
    have hye := Nat.div_add_mod y (10 ^ k)
    have hxr : x % 10 ^ k < 10 ^ k := Nat.mod_lt _ hP
    have hyr : y % 10 ^ k < 10 ^ k := Nat.mod_lt _ hP
    show (if (digitChar (x / 10 ^ k % 10)).toNat < (digitChar (y / 10 ^ k % 10)).toNat then true
      else if (digitChar (y / 10 ^ k % 10)).toNat < (digitChar (x / 10 ^ k % 10)).toNat then false
      else jsLtL (padDigits k x) (padDigits k y)) = true ↔ x < y
    rw [hxm, hym, digitChar_toNat _ hxd, digitChar_toNat _ hyd]
    by_cases hab : x / 10 ^ k < y / 10 ^ k
    · rw [if_pos (by omega)]
      constructor
      · intro _
        have hstep : x / 10 ^ k + 1 ≤ y / 10 ^ k := hab
        have key : 10 ^ k * (x / 10 ^ k) + 10 ^ k ≤ 10 ^ k * (y / 10 ^ k) := by
          calc 10 ^ k * (x / 10 ^ k) + 10 ^ k = 10 ^ k * (x / 10 ^ k + 1) := by ring
            _ ≤ 10 ^ k * (y / 10 ^ k) := Nat.mul_le_mul_left _ hstep
        omega
      · intro _
        rfl
    · by_cases hba : y / 10 ^ k < x / 10 ^ k
      · rw [if_neg (by omega), if_pos (by omega)]
        constructor
        · intro h
          exact absurd h (by simp)
        · intro h
          exfalso
          have hstep : y / 10 ^ k + 1 ≤ x / 10 ^ k := hba
          have key : 10 ^ k * (y / 10 ^ k) + 10 ^ k ≤ 10 ^ k * (x / 10 ^ k) := by
            calc 10 ^ k * (y / 10 ^ k) + 10 ^ k = 10 ^ k * (y / 10 ^ k + 1) := by ring
              _ ≤ 10 ^ k * (x / 10 ^ k) := Nat.mul_le_mul_left _ hstep
          omega
      · have heq : x / 10 ^ k = y / 10 ^ k := by omega
        rw [if_neg (by omega), if_neg (by omega)]
        rw [padDigits_mod k x, padDigits_mod k y]
        rw [jsLtL_padDigits k (x % 10 ^ k) (y % 10 ^ k) hxr hyr]
        rw [heq] at hxe
        constructor <;> intro <;> omega

theorem jsLe_padDigits (k x y : Nat) (hx : x < 10 ^ k) (hy : y < 10 ^ k) (hxy : x ≤ y) :
    jsLe ⟨padDigits k x⟩ ⟨padDigits k y⟩ = true := by
  have hiff := jsLtL_padDigits k y x hy hx
  have hf : jsLtL (padDigits k y) (padDigits k x) = false := by
    cases hb : jsLtL (padDigits k y) (padDigits k x) with
    | false => rfl
    | true => exact absurd (hiff.mp hb) (by omega)
  have hgoal : jsLe ⟨padDigits k x⟩ ⟨padDigits k y⟩ =
      !(jsLtL (padDigits k y) (padDigits k x)) := rfl
  rw [hgoal, hf]
  rfl

theorem takeDigitsAux_exact : ∀ (ds rest : List Char) (acc : Nat),
    (∀ c ∈ ds, c.isDigit = true) →
    takeDigitsAux ds.length acc (ds ++ rest) = (acc * 10 ^ ds.length + digitsValL ds, rest)
  | [], rest, acc, _ => by
    simp [takeDigitsAux, digitsValL]
  | c :: ds, rest, acc, hd => by
    show takeDigitsAux (ds.length + 1) acc (c :: (ds ++ rest)) = _
    rw [show takeDigitsAux (ds.length + 1) acc (c :: (ds ++ rest)) =
      if c.isDigit then takeDigitsAux ds.length (acc * 10 + (c.toNat - 48)) (ds ++ rest)
      else (acc, c :: (ds ++ rest)) from rfl]
    rw [if_pos (hd c (by simp))]
    rw [takeDigitsAux_exact ds rest _ (fun c2 hc2 => hd c2 (by simp [hc2]))]
    have hcons : digitsValL (c :: ds) = (c.toNat - 48) * 10 ^ ds.length + digitsValL ds := by
      show ds.foldl _ (0 * 10 + (c.toNat - 48)) = _
      rw [show 0 * 10 + (c.toNat - 48) = c.toNat - 48 by omega]
      exact digitsValL_foldl ds _
    simp only [Prod.mk.injEq, List.length_cons]
    refine ⟨?_, by trivial⟩
    rw [hcons]
    ring

theorem takeDigits_exact (ds rest : List Char) (hlen : 1 ≤ ds.length)
    (hd : ∀ c ∈ ds, c.isDigit = true) :
    takeDigits ds.length (ds ++ rest) = some (digitsValL ds, rest) := by
  cases ds with
  | nil => simp at hlen
  | cons c ds =>
    show takeDigits (ds.length + 1) (c :: (ds ++ rest)) = _
    rw [show takeDigits (ds.length + 1) (c :: (ds ++ rest)) =
      if c.isDigit then some (takeDigitsAux (ds.length + 1 - 1) (c.toNat - 48) (ds ++ rest))
      else none from rfl]
    rw [if_pos (hd c (by simp))]
    rw [show ds.length + 1 - 1 = ds.length from rfl]
    rw [takeDigitsAux_exact ds rest _ (fun c2 hc2 => hd c2 (by simp [hc2]))]
    have hcons : digitsValL (c :: ds) = (c.toNat - 48) * 10 ^ ds.length + digitsValL ds := by
      show ds.foldl _ (0 * 10 + (c.toNat - 48)) = _
      rw [show 0 * 10 + (c.toNat - 48) = c.toNat - 48 by omega]
      exact digitsValL_foldl ds _
    rw [hcons]

theorem daysInMonth_bounds (y m : Nat) : 28 ≤ daysInMonth y m ∧ daysInMonth y m ≤ 31 := by
  unfold daysInMonth
  split
  · split <;> omega
  · split <;> omega

theorem formatYMD_data (dt : SimpleDate) (hy : dt.year < 10 ^ 4) :
    (formatYMD dt).data = padDigits 4 dt.year ++ (padDigits 2 dt.month ++ padDigits 2 dt.day) := by
  show padNum 4 dt.year ++ padDigits 2 dt.month ++ padDigits 2 dt.day = _
  rw [padNum, if_pos hy, List.append_assoc]

theorem formatYMD_data_length (dt : SimpleDate) (hy : dt.year < 10 ^ 4) :
    (formatYMD dt).data.length = 8 := by
  rw [formatYMD_data dt hy]
  simp [padDigits_length]

theorem parseYMD_formatYMD (dt : SimpleDate)
    (h1 : 1 ≤ dt.year) (h2 : dt.year ≤ 9999) (h3 : 1 ≤ dt.month) (h4 : dt.month ≤ 12)
    (h5 : 1 ≤ dt.day) (h6 : dt.day ≤ daysInMonth dt.year dt.month) :
    parseYMD (formatYMD dt) = some dt := by
  obtain ⟨y, m, d⟩ := dt
  simp only at h1 h2 h3 h4 h5 h6
  have hp4 : (10 : Nat) ^ 4 = 10000 := by norm_num
  have hp2 : (10 : Nat) ^ 2 = 100 := by norm_num
  have hy : y < 10 ^ 4 := by omega
  have hm : m < 10 ^ 2 := by omega
  have hd31 : d ≤ 31 := le_trans h6 (daysInMonth_bounds y m).2
  have hd : d < 10 ^ 2 := by omega
  have hdata := formatYMD_data ⟨y, m, d⟩ hy
  have ht1 : takeDigits 4 ((formatYMD ⟨y, m, d⟩).data) =
      some (y, padDigits 2 m ++ padDigits 2 d) := by
    rw [hdata]
    have := takeDigits_exact (padDigits 4 y) (padDigits 2 m ++ padDigits 2 d)
      (by rw [padDigits_length]; omega) (padDigits_isDigit 4 y)
    rw [padDigits_length] at this
    rw [this, digitsValL_padDigits, Nat.mod_eq_of_lt hy]
  have ht2 : takeDigits 2 (padDigits 2 m ++ padDigits 2 d) = some (m, padDigits 2 d) := by
    have := takeDigits_exact (padDigits 2 m) (padDigits 2 d)
      (by rw [padDigits_length]; omega) (padDigits_isDigit 2 m)
    rw [padDigits_length] at this
    rw [this, digitsValL_padDigits, Nat.mod_eq_of_lt hm]
  have ht3 : takeDigits 2 (padDigits 2 d) = some (d, []) := by
    have := takeDigits_exact (padDigits 2 d) []
      (by rw [padDigits_length]; omega) (padDigits_isDigit 2 d)
    rw [padDigits_length, List.append_nil] at this
    rw [this, digitsValL_padDigits, Nat.mod_eq_of_lt hd]
  unfold parseYMD
  rw [ht1]
  simp only [Option.bind_eq_bind, Option.some_bind]
  rw [ht2]
  simp only [Option.some_bind]
  rw [ht3]
  simp only [Option.some_bind]
  rw [if_pos ⟨trivial, h1, h3, h4, h5, h6⟩]
  rfl

theorem dateNum_lt_addMonthsD (dt : SimpleDate) (n : Nat)
    (hm1 : 1 ≤ dt.month) (hm2 : dt.month ≤ 12) (hd1 : 1 ≤ dt.day) (hd2 : dt.day ≤ 31)
    (hn : 1 ≤ n) :
    dateNum dt < dateNum (addMonthsD dt n) := by
  obtain ⟨y, m, d⟩ := dt
  simp only [addMonthsD, dateNum] at *
  have h12 := Nat.div_add_mod (12 * y + (m - 1) + n) 12
  have hmod : (12 * y + (m - 1) + n) % 12 < 12 := Nat.mod_lt _ (by omega)
  obtain ⟨hlo, hhi⟩ := daysInMonth_bounds ((12 * y + (m - 1) + n) / 12)
    ((12 * y + (m - 1) + n) % 12 + 1)
  have hdiv : y ≤ (12 * y + (m - 1) + n) / 12 := by
    have : 12 * y ≤ 12 * y + (m - 1) + n := by omega
    calc y = 12 * y / 12 := by omega
      _ ≤ (12 * y + (m - 1) + n) / 12 := Nat.div_le_div_right this
  have hmul : 12 * ((12 * y + (m - 1) + n) / 12) ≤ 12 * y + (m - 1) + n := by omega
  rcases Nat.lt_or_ge y ((12 * y + (m - 1) + n) / 12) with hy | hy
  · have hstep : y + 1 ≤ (12 * y + (m - 1) + n) / 12 := hy
    have key : 10000 * (y + 1) ≤ 10000 * ((12 * y + (m - 1) + n) / 12) :=
      Nat.mul_le_mul_left _ hstep
    rcases min_choice d (daysInMonth ((12 * y + (m - 1) + n) / 12)
      ((12 * y + (m - 1) + n) % 12 + 1)) with hmin | hmin <;> rw [hmin] <;> omega
  · have hyeq : (12 * y + (m - 1) + n) / 12 = y := by omega
    rw [hyeq] at h12 ⊢
    rcases min_choice d (daysInMonth y ((12 * y + (m - 1) + n) % 12 + 1)) with hmin | hmin <;>
      rw [hmin] <;> omega

theorem formatYMD_data_pad8 (dt : SimpleDate) (hy : dt.year < 10 ^ 4) (hm : dt.month < 10 ^ 2)
    (hd : dt.day < 10 ^ 2) :
    (formatYMD dt).data = padDigits 8 (dateNum dt) := by
  have hp2 : (10 : Nat) ^ 2 = 100 := by norm_num
  have hp4 : (10 : Nat) ^ 4 = 10000 := by norm_num
  rw [formatYMD_data dt hy]
  rw [padDigits_append 2 dt.month 2 dt.day hd]
  have hmd : dt.month * 10 ^ 2 + dt.day < 10 ^ 4 := by
    rw [hp2] at hm hd
    rw [hp2, hp4]
    omega
  rw [padDigits_append 4 dt.year 4 (dt.month * 10 ^ 2 + dt.day) hmd]
  have harg : dt.year * 10 ^ 4 + (dt.month * 10 ^ 2 + dt.day) = dateNum dt := by
    unfold dateNum
    rw [hp2, hp4]
    ring
  rw [harg]

theorem calcExp_formats (a v : String) (dt : SimpleDate) (n : Nat) (u : Bool)
    (hfmt : jsTrim a = formatYMD dt)
    (h1 : 1 ≤ dt.year) (h2 : dt.year ≤ 9999) (h3 : 1 ≤ dt.month) (h4 : dt.month ≤ 12)
    (h5 : 1 ≤ dt.day) (h6 : dt.day ≤ daysInMonth dt.year dt.month)
    (hv : periodParse v = some (n, u))
    (hres : (if u then addYearsD dt n else addMonthsD dt n).year ≤ 9999) :
    calculateExpirationDate (some a) (some v) =
      formatYMD (if u then addYearsD dt n else addMonthsD dt n) := by
  have hy4 : dt.year < 10 ^ 4 := by
    have hp4 : (10 : Nat) ^ 4 = 10000 := by norm_num
    omega
  have hlen : (jsTrim a).data.length = 8 := by rw [hfmt]; exact formatYMD_data_length dt hy4
  have hane : a ≠ "" := by
    intro h
    rw [h] at hlen
    have h0 : (jsTrim "").data.length = 0 := rfl
    omega
  have hadash : a ≠ "-" := by
    intro h
    rw [h] at hlen
    have h0 : (jsTrim "-").data.length = 1 := rfl
    omega
  have hroll : ¬ jsToLower (jsTrim a) = "rolling" := by
    intro h
    have hl2 : (jsToLower (jsTrim a)).data.length = (jsTrim a).data.length := by
      show ((jsTrim a).data.map Char.toLower).length = _
      exact List.length_map _ _
    rw [h] at hl2
    have h7 : ("rolling" : String).data.length = 7 := rfl
    omega
  have hvne : v ≠ "" := by
    intro h
    rw [h] at hv
    have h0 : periodParse "" = none := rfl
    rw [h0] at hv
    exact absurd hv (by simp)
  have hvdash : v ≠ "-" := by
    intro h
    rw [h] at hv
    have h0 : periodParse "-" = none := rfl
    rw [h0] at hv
    exact absurd hv (by simp)
  have hparse : parseYMD (jsTrim a) = some dt := by
    rw [hfmt]
    exact parseYMD_formatYMD dt h1 h2 h3 h4 h5 h6
  have hmle : (if u then addYearsD dt n else addMonthsD dt n).month ≤ 12 := by
    cases u <;> simp only [if_true, if_false, Bool.false_eq_true, addYearsD, addMonthsD] <;>
      omega
  have hdle : (if u then addYearsD dt n else addMonthsD dt n).day ≤ 31 := by
    have hd31 : dt.day ≤ 31 := le_trans h6 (daysInMonth_bounds _ _).2
    cases u <;> simp only [if_true, if_false, Bool.false_eq_true, addYearsD, addMonthsD] <;>
      exact le_trans (Nat.min_le_left _ _) hd31
  have hcut : ¬ (maxJsDateNum < dateNum (if u then addYearsD dt n else addMonthsD dt n)) := by
    unfold maxJsDateNum dateNum
    intro hcontra
    have hy' := hres
    have hmul : (if u then addYearsD dt n else addMonthsD dt n).year * 10000 ≤ 99990000 := by
      have := Nat.mul_le_mul_right 10000 hy'
      omega
    omega
  have hguard : ¬ (a = "" ∨ v = "" ∨ a = "-" ∨ v = "-" ∨ jsToLower (jsTrim a) = "rolling") := by
    intro h
    rcases h with h | h | h | h | h
    exacts [hane h, hvne h, hadash h, hvdash h, hroll h]
  unfold calculateExpirationDate
  simp only [Option.getD_some]
  rw [if_neg hguard]
  simp only [hparse, hv]
  rw [if_neg hcut]

/-- C6 (counterexample): for the valid approval date `"99990101"` and the
period code `"1y"`, the calculator returns `"100000101"` — a nine-character
string, not an eight-digit `YYYYMMDD` — and that result is *smaller* than
the approval date under string comparison, refuting `expiration ≥
approval`. A large enough amount (here 999999 years) even makes the code
return `"-"` because the sum leaves the range a JS `Date` can represent. -/
theorem c6_counterexample :
    calculateExpirationDate (some "99990101") (some "1y") = "100000101" ∧
    jsLe "99990101" "100000101" = false ∧
    ("100000101" : String).length ≠ 8 ∧
    calculateExpirationDate (some "20240101") (some "999999y") = "-" :=
  ⟨by decide, by decide, by decide, by decide⟩

/-- C6 (amended): for every approval string whose trimmed form is the
`YYYYMMDD` rendering of a valid calendar date and every period code
matching `^(\d+)([my])$`, *provided the resulting date's year still fits
in four digits*, the calculator returns the approval date plus the coded
number of months (`m`) or years (`y`) — with `date-fns`' day-of-month
clamping — formatted back as `YYYYMMDD`, and for every positive amount the
result is ≥ the approval date under JS string comparison. -/
theorem c6_amended (a v : String) (dt : SimpleDate) (n : Nat) (u : Bool)
    (hfmt : jsTrim a = formatYMD dt)
    (hvd : 1 ≤ dt.year ∧ dt.year ≤ 9999 ∧ 1 ≤ dt.month ∧ dt.month ≤ 12 ∧ 1 ≤ dt.day ∧
      dt.day ≤ daysInMonth dt.year dt.month)
    (hv : periodParse v = some (n, u))
    (hres : (if u then addYearsD dt n else addMonthsD dt n).year ≤ 9999) :
    calculateExpirationDate (some a) (some v) =
      formatYMD (if u then addYearsD dt n else addMonthsD dt n) ∧
    (1 ≤ n →
      jsLe (jsTrim a) (formatYMD (if u then addYearsD dt n else addMonthsD dt n)) = true) := by
  obtain ⟨h1, h2, h3, h4, h5, h6⟩ := hvd
  refine ⟨calcExp_formats a v dt n u hfmt h1 h2 h3 h4 h5 h6 hv hres, ?_⟩
  intro hn
  have hp2 : (10 : Nat) ^ 2 = 100 := by norm_num
  have hp4 : (10 : Nat) ^ 4 = 10000 := by norm_num
  have hp8 : (10 : Nat) ^ 8 = 100000000 := by norm_num
  have hd31 : dt.day ≤ 31 := le_trans h6 (daysInMonth_bounds _ _).2
  have hmono : dateNum dt < dateNum (if u then addYearsD dt n else addMonthsD dt n) := by
    cases u
    · simp only [Bool.false_eq_true, if_false]
      exact dateNum_lt_addMonthsD dt n h3 h4 h5 hd31 hn
    · simp only [if_true]
      unfold addYearsD
      exact dateNum_lt_addMonthsD dt (12 * n) h3 h4 h5 hd31 (by omega)
  have hmle : (if u then addYearsD dt n else addMonthsD dt n).month ≤ 12 := by
    cases u <;> simp only [if_true, if_false, Bool.false_eq_true, addYearsD, addMonthsD] <;>
      omega
  have hdle : (if u then addYearsD dt n else addMonthsD dt n).day ≤ 31 := by
    cases u <;> simp only [if_true, if_false, Bool.false_eq_true, addYearsD, addMonthsD] <;>
      exact le_trans (Nat.min_le_left _ _) hd31
  have h8a : jsTrim a = (⟨padDigits 8 (dateNum dt)⟩ : String) := by
    rw [hfmt]
    apply String.ext
    exact formatYMD_data_pad8 dt (by omega) (by omega) (by omega)
  have h8r : formatYMD (if u then addYearsD dt n else addMonthsD dt n) =
      (⟨padDigits 8 (dateNum (if u then addYearsD dt n else addMonthsD dt n))⟩ : String) := by
    apply String.ext
    exact formatYMD_data_pad8 _ (by omega) (by omega) (by omega)
  rw [h8a, h8r]
  apply jsLe_padDigits 8 _ _ ?_ ?_ (le_of_lt hmono)
  · unfold dateNum
    have : dt.year * 10000 ≤ 99990000 := by
      have := Nat.mul_le_mul_right 10000 h2
      omega
    omega
  · unfold dateNum
    have : (if u then addYearsD dt n else addMonthsD dt n).year * 10000 ≤ 99990000 := by
      have := Nat.mul_le_mul_right 10000 hres
      omega
    omega

theorem c6_amended_witness :
    calculateExpirationDate (some "20240101") (some "12m") = "20250101" ∧
    jsLe "20240101" "20250101" = true := by
  have h := c6_amended "20240101" "12m" ⟨2024, 1, 1⟩ 12 false (by decide) (by decide)
    (by decide) (by decide)
  constructor
  · exact h.1.trans (by decide)
  · have hle := h.2 (by decide)
    have e1 : jsTrim "20240101" = "20240101" := by decide
    have e2 : formatYMD (if false then addYearsD ⟨2024, 1, 1⟩ 12
        else addMonthsD ⟨2024, 1, 1⟩ 12) = "20250101" := by decide
    rw [e1, e2] at hle
    exact hle

/-! ## Claim C3 -/

theorem mapGet_mapSet_ne {α : Type} :
    ∀ (m : List (String × α)) (k k2 : String) (v : α), (k == k2) = false →
      mapGet (mapSet m k v) k2 = mapGet m k2
  | [], k, k2, v, hne => by
    show mapGet [(k, v)] k2 = mapGet [] k2
    simp [mapGet, List.find?, hne]
  | (k', v') :: m, k, k2, v, hne => by
    show mapGet (if k' == k then (k', v) :: m else (k', v') :: mapSet m k v) k2 = _
    by_cases hk : (k' == k) = true
    · rw [if_pos hk]
      have hk'2 : (k' == k2) = false := by
        have h1 : k' = k := eq_of_beq hk
        rw [h1]
        exact hne
      simp [mapGet, List.find?, hk'2]
    · rw [if_neg hk]
      by_cases hk2 : (k' == k2) = true
      · simp [mapGet, List.find?, hk2]
      · have hk2f : (k' == k2) = false := by
          cases hb : (k' == k2) with
          | true => exact absurd hb hk2
          | false => rfl
        simp only [mapGet, List.find?, hk2f]
        exact mapGet_mapSet_ne m k k2 v hne

theorem mapSet_length_new {α : Type} :
    ∀ (m : List (String × α)) (k : String) (v : α), mapGet m k = none →
      (mapSet m k v).length = m.length + 1
  | [], _, _, _ => rfl
  | (k', v') :: m, k, v, hget => by
    have hk : (k' == k) = false := by
      cases hb : (k' == k) with
      | false => rfl
      | true =>
        exfalso
        have : mapGet ((k', v') :: m) k = some v' := by
          simp [mapGet, List.find?, hb]
        rw [this] at hget
        exact absurd hget (by simp)
    have htail : mapGet m k = none := by
      have : mapGet ((k', v') :: m) k = mapGet m k := by
        simp [mapGet, List.find?, hk]
      rw [← this]
      exact hget
    show (if k' == k then (k', v) :: m else (k', v') :: mapSet m k v).length = m.length + 1 + 1
    rw [if_neg (by simp [hk])]
    show (mapSet m k v).length + 1 = m.length + 1 + 1
    rw [mapSet_length_new m k v htail]

theorem buildDataMap_go :
    ∀ (rows : List CsvRow) (m : List (String × CsvRow)),
      (∀ r ∈ rows, emailKeyOf r ≠ "") → ((rows.map emailKeyOf).Nodup) →
      (∀ r ∈ rows, mapGet m (emailKeyOf r) = none) →
      (rows.foldl
        (fun m row => if emailKeyOf row ≠ "" then mapSet m (emailKeyOf row) row else m)
        m).length = m.length + rows.length
  | [], m, _, _, _ => by simp
  | row :: rows, m, hne, hnd, hfresh => by
    have hkey : emailKeyOf row ≠ "" := hne row (by simp)
    show (rows.foldl _ (if emailKeyOf row ≠ "" then mapSet m (emailKeyOf row) row else m)).length
      = m.length + (rows.length + 1)
    rw [if_pos hkey]
    rw [List.map_cons] at hnd
    have hnd2 := List.nodup_cons.mp hnd
    have ih := buildDataMap_go rows (mapSet m (emailKeyOf row) row)
      (fun r hr => hne r (by simp [hr])) hnd2.2
      (fun r hr => by
        have hdiff : (emailKeyOf row == emailKeyOf r) = false := by
          cases hb : (emailKeyOf row == emailKeyOf r) with
          | false => rfl
          | true =>
            exfalso
            have hmem : emailKeyOf r ∈ rows.map emailKeyOf := List.mem_map.mpr ⟨r, hr, rfl⟩
            rw [← eq_of_beq hb] at hmem
            exact hnd2.1 hmem
        rw [mapGet_mapSet_ne m (emailKeyOf row) (emailKeyOf r) row hdiff]
        exact hfresh r (by simp [hr]))
    rw [ih, mapSet_length_new m (emailKeyOf row) row (hfresh row (by simp))]
    omega

theorem buildDataMap_length (rows : List CsvRow)
    (hne : ∀ r ∈ rows, emailKeyOf r ≠ "") (hnd : (rows.map emailKeyOf).Nodup) :
    (buildDataMap rows).length = rows.length := by
  have := buildDataMap_go rows [] hne hnd (fun r _ => rfl)
  simpa [buildDataMap] using this

theorem groupAdd_rows_perm :
    ∀ (g : List (String × List CsvRow)) (b : String) (rows : List CsvRow),
      List.Perm (((groupAdd g b rows).map (·.2)).flatten) ((g.map (·.2)).flatten ++ rows)
  | [], b, rows => by
    simp [groupAdd, mapGet, mapSet]
  | (k, v) :: g, b, rows => by
    unfold groupAdd
    by_cases hk : (k == b) = true
    · have hget : mapGet ((k, v) :: g) b = some v := by
        simp [mapGet, List.find?, hk]
      rw [hget]
      simp only [Option.getD_some, mapSet]
      rw [if_pos hk]
      simp only [List.map_cons, List.flatten_cons]
      have step1 : (v ++ rows) ++ (g.map (·.2)).flatten =
          v ++ (rows ++ (g.map (·.2)).flatten) := List.append_assoc v rows _
      have step3 : v ++ ((g.map (·.2)).flatten ++ rows) =
          (v ++ (g.map (·.2)).flatten) ++ rows := (List.append_assoc v _ rows).symm
      rw [step1, ← step3]
      exact List.Perm.append_left v List.perm_append_comm
    · have hkf : (k == b) = false := by
        cases hb : (k == b) with
        | false => rfl
        | true => exact absurd hb hk
      have hget : mapGet ((k, v) :: g) b = mapGet g b := by
        simp [mapGet, List.find?, hkf]
      rw [hget]
      simp only [mapSet]
      rw [if_neg hk]
      simp only [List.map_cons, List.flatten_cons]
      have ih := groupAdd_rows_perm g b rows
      unfold groupAdd at ih
      have step3 : v ++ ((g.map (·.2)).flatten ++ rows) =
          (v ++ (g.map (·.2)).flatten) ++ rows := (List.append_assoc v _ rows).symm
      rw [← step3]
      exact List.Perm.append_left v ih

theorem foldl_add_sum {α : Type} (f : α → Nat) :
    ∀ (l : List α) (a : Nat), l.foldl (fun s x => s + f x) a = a + (l.map f).sum
  | [], a => by simp
  | x :: l, a => by
    show l.foldl _ (a + f x) = a + (List.map f (x :: l)).sum
    rw [foldl_add_sum f l (a + f x), List.map_cons, List.sum_cons]
    omega

theorem v1GroupedAux_perm :
    ∀ (entries g0 : List (String × List CsvRow)),
      List.Perm
        (((entries.foldl (fun g e => if 0 < e.2.length then groupAdd g e.1 e.2 else g)
            g0).map (·.2)).flatten)
        ((g0.map (·.2)).flatten ++ (entries.map (·.2)).flatten)
  | [], g0 => by simp
  | e :: entries, g0 => by
    simp only [List.foldl_cons, List.map_cons, List.flatten_cons]
    by_cases hlen : 0 < e.2.length
    · rw [if_pos hlen]
      have ih := v1GroupedAux_perm entries (groupAdd g0 e.1 e.2)
      have hg := groupAdd_rows_perm g0 e.1 e.2
      refine ih.trans ?_
      refine (List.Perm.append_right _ hg).trans ?_
      rw [List.append_assoc]
    · rw [if_neg hlen]
      have he : e.2 = [] := by
        cases h2 : e.2 with
        | nil => rfl
        | cons a b => rw [h2] at hlen; simp at hlen
      have ih := v1GroupedAux_perm entries g0
      rw [he, List.nil_append]
      exact ih

def exC3Dir : Dir :=
  [("alpha.conf", "Alpha,Sub"),
   ("alpha.csv", "Email,Product Configurations\nbob@x.com,a\nbob@x.com,b")]

/-- C3 (counterexample): on a directory whose single main CSV holds two
rows with the same email, the v1 query route's count (which sums the sizes
of the per-source deduplicating indices) returns 1, while the standalone
count endpoint (which sums parsed row counts) returns 2 — the two
implementations do not agree, and the v1 one is not the claimed raw row
total. -/
theorem c3_counterexample :
    getUserCountV1 exC3Dir = 1 ∧ getUserCountStandalone exC3Dir = 2 :=
  ⟨by decide, by decide⟩

/-- C3 (amended): the two count implementations agree — and both equal
`floor(totalRows * udgr / 100 + naud)` over the same tuning parsing —
whenever (a) the two pipelines select the same main files and parse them
to the same rows (`hsame`; the v1 route checks the main headers and
excludes only `additional`, the standalone endpoint parses header-free and
also excludes `payment`, so this can fail), and (b) the email keys of all
selected rows are non-blank and pairwise distinct (`hne`, `hnd`; otherwise
the v1 route's deduplicating index undercounts). -/
theorem c3_amended (dir : Dir)
    (hsame : v1MainEntries dir = stdMainEntries dir)
    (hne : ∀ r ∈ ((v1MainEntries dir).map (·.2)).flatten, emailKeyOf r ≠ "")
    (hnd : ((((v1MainEntries dir).map (·.2)).flatten).map emailKeyOf).Nodup) :
    getUserCountV1 dir = getUserCountStandalone dir := by
  unfold getUserCountV1 getUserCountStandalone
  have hperm := v1GroupedAux_perm (v1MainEntries dir) []
  simp only [List.map_nil, List.flatten_nil, List.nil_append] at hperm
  have hgnodup : ((((v1Grouped dir).map (·.2)).flatten).map emailKeyOf).Nodup :=
    ((hperm.map emailKeyOf).symm).nodup hnd
  have hmapeq : (v1Grouped dir).map (fun e => (buildDataMap e.2).length) =
      (v1Grouped dir).map (fun e => e.2.length) := by
    apply List.map_congr_left
    intro e he
    apply buildDataMap_length
    · intro r hr
      apply hne
      rw [← hperm.mem_iff]
      exact List.mem_flatten.mpr ⟨e.2, List.mem_map.mpr ⟨e, he, rfl⟩, hr⟩
    · have hflat : (((v1Grouped dir).map (·.2)).map (List.map emailKeyOf)).flatten.Nodup := by
        rw [← List.map_flatten]
        exact hgnodup
      exact (List.nodup_flatten.mp hflat).1 (e.2.map emailKeyOf)
        (List.mem_map.mpr ⟨e.2, List.mem_map.mpr ⟨e, he, rfl⟩, rfl⟩)
  have hlen1 : ((v1Grouped dir).map (fun e => e.2.length)).sum =
      (((v1Grouped dir).map (·.2)).flatten).length := by
    rw [List.length_flatten, List.map_map]
    rfl
  have hlen2 : ((v1MainEntries dir).map (fun e => e.2.length)).sum =
      (((v1MainEntries dir).map (·.2)).flatten).length := by
    rw [List.length_flatten, List.map_map]
    rfl
  have hv1 : (v1DataSources dir).foldl (fun s ds => s + ds.dataMap.length) 0 =
      ((v1MainEntries dir).map (fun e => e.2.length)).sum := by
    unfold v1DataSources
    rw [List.foldl_map]
    have hfun : (fun (s : Nat) (e : String × List CsvRow) =>
        s + (DataSource.mk e.1 (buildDataMap e.2)).dataMap.length) =
        (fun (s : Nat) (e : String × List CsvRow) => s + (buildDataMap e.2).length) := rfl
    rw [hfun, foldl_add_sum (fun e : String × List CsvRow => (buildDataMap e.2).length), hmapeq,
      hlen1, hlen2,
      Nat.zero_add]
    exact hperm.length_eq
  have hstd : (stdMainEntries dir).foldl (fun s e => s + e.2.length) 0 =
      ((v1MainEntries dir).map (fun e => e.2.length)).sum := by
    rw [← hsame, foldl_add_sum (fun e : String × List CsvRow => e.2.length), Nat.zero_add]
  rw [hv1, hstd]

def exC3wDir : Dir :=
  [("alpha.conf", "Alpha,Sub"),
   ("alpha.csv", "Email,Product Configurations\nbob@x.com,a\ncarol@x.com,b")]

theorem c3_amended_witness :
    getUserCountV1 exC3wDir = getUserCountStandalone exC3wDir ∧
    getUserCountV1 exC3wDir = 2 := by
  refine ⟨c3_amended exC3wDir (by decide) (by decide) (by decide), by decide⟩

end AdobeLookup
